import Mathlib

/-!
# CleanCacheEditor: the directory-removal cascade

A shallow embedding of `FCleanCacheEditorModule` from
`Source/CleanCacheEditor/Private/CleanCacheEditor.cpp`.

The engine services the module calls (`IFileManager`, `FPlatformProcess`,
the path operator `/` of `FString`, the platform switches) are not code of the
plugin: they are the fields of `World`, over an arbitrary filesystem state `σ`.
Every function of the plugin is a state-passing function over such a world and
returns, next to its result, the list of engine calls it made (`Event`).
`DeleteDirectoryContents` recurses over the directory tree; its model takes a
recursion budget and returns `none` when the budget is exhausted.
-/

namespace CleanCache

/-! ## Engine services -/

/-- Verbosity of a `UE_LOG` line. -/
inductive Verbosity
  | Log
  | Warning
  | Error
  deriving DecidableEq, Repr

/-- One call made to the engine, with the arguments passed and the value the
engine reported. -/
inductive Event
  | DirectoryExists (Path : String) (Result : Bool)
  | DeleteDirectory (Path : String) (RequireExists Tree : Bool) (Result : Bool)
  | FindFiles (Filename : String) (Files Directories : Bool) (Result : List String)
  | Delete (Filename : String) (RequireExists EvenReadOnly Quiet : Bool) (Result : Bool)
  | ExecProcess (URL Params : String) (bResult : Bool) (ReturnCode : Int)
  | UE_LOG (V : Verbosity) (Text : String)
  deriving DecidableEq, Repr

/-- The engine as seen by the plugin, over a filesystem state `σ`.

* `DirectoryExists`, `FindFiles`: queries of `IFileManager`;
* `DeleteDirectory Path RequireExists Tree`, `Delete Filename RequireExists
  EvenReadOnly Quiet`: the mutating calls of `IFileManager`, returning the
  reported result and the new state;
* `ExecProcess URL Params`: `FPlatformProcess::ExecProcess`, returning its
  boolean result, the value written to `OutReturnCode` (if any) and the new
  state;
* `PathAppend`: the operator `/` of `FString`;
* `PLATFORM_*`: the compile-time platform switches. -/
structure World (σ : Type) where
  DirectoryExists : σ → String → Bool
  DeleteDirectory : σ → String → Bool → Bool → Bool × σ
  FindFiles : σ → String → Bool → Bool → List String
  Delete : σ → String → Bool → Bool → Bool → Bool × σ
  ExecProcess : σ → String → String → Bool × Option Int × σ
  PathAppend : String → String → String
  PLATFORM_WINDOWS : Bool
  PLATFORM_MAC : Bool
  PLATFORM_LINUX : Bool

/-- Two's-complement wrap of an integer into the range of `int32`. -/
def wrapInt32 (x : Int) : Int := (x + 2147483648) % 4294967296 - 2147483648

/-! ## `DeleteDirectoryContents` -/

variable {σ : Type}

/-- The first loop of `DeleteDirectoryContents`: one `Delete` per listed file,
a warning logged when it reports failure, and the loop goes on either way. -/
def deleteFiles (W : World σ) (DirectoryPath : String) : List String → σ → σ × List Event
  | [], s => (s, [])
  | File :: rest, s =>
    let FilePath := W.PathAppend DirectoryPath File
    let r := W.Delete s FilePath false true true
    let k := deleteFiles W DirectoryPath rest r.2
    (k.1, Event.Delete FilePath false true true r.1 ::
      ((if !r.1 then [Event.UE_LOG .Warning ("Could not delete file: " ++ FilePath)] else [])
        ++ k.2))

/-- The second loop of `DeleteDirectoryContents`: for every listed
subdirectory the recursive call, `return false` when it fails, otherwise a
non-recursive `DeleteDirectory` whose result is ignored. `recurse` is the
recursive call. -/
def deleteSubDirs (W : World σ) (recurse : σ → String → Option (Bool × σ × List Event))
    (DirectoryPath : String) : List String → σ → Option (Bool × σ × List Event)
  | [], s => some (true, s, [])
  | SubDir :: rest, s =>
    let SubDirPath := W.PathAppend DirectoryPath SubDir
    match recurse s SubDirPath with
    | none => none
    | some (ok, s1, t1) =>
      if !ok then some (false, s1, t1)
      else
        let r := W.DeleteDirectory s1 SubDirPath false false
        match deleteSubDirs W recurse DirectoryPath rest r.2 with
        | none => none
        | some (b, s3, t3) =>
          some (b, s3, t1 ++ Event.DeleteDirectory SubDirPath false false r.1 :: t3)

/-- `FCleanCacheEditorModule::DeleteDirectoryContents`, with a recursion
budget: `none` means the budget did not cover the depth of the tree. -/
def DeleteDirectoryContents (W : World σ) : Nat → σ → String → Option (Bool × σ × List Event)
  | 0, _, _ => none
  | fuel + 1, s, DirectoryPath =>
    let Files := W.FindFiles s (W.PathAppend DirectoryPath "*") true false
    let d := deleteFiles W DirectoryPath Files s
    let SubDirs := W.FindFiles d.1 (W.PathAppend DirectoryPath "*") false true
    match deleteSubDirs W (DeleteDirectoryContents W fuel) DirectoryPath SubDirs d.1 with
    | none => none
    | some (b, s2, t2) =>
      some (b, s2,
        Event.FindFiles (W.PathAppend DirectoryPath "*") true false Files ::
          (d.2 ++ Event.FindFiles (W.PathAppend DirectoryPath "*") false true SubDirs :: t2))

/-! ## `ForceDeleteDirectory` -/

/-- `FCleanCacheEditorModule::ForceDeleteDirectory`: the shell command of the
platform, success when the process was launched and exited with code 0; no
call and `false` on any other platform. `ReturnCode` starts at `-1`. -/
def ForceDeleteDirectory (W : World σ) (s : σ) (DirectoryPath : String) : Bool × σ × List Event :=
  if W.PLATFORM_WINDOWS then
    let Command := "rmdir /s /q \"" ++ DirectoryPath ++ "\""
    let r := W.ExecProcess s "cmd.exe" ("/c " ++ Command)
    let ReturnCode : Int := r.2.1.getD (-1)
    (r.1 && ReturnCode == 0, r.2.2, [Event.ExecProcess "cmd.exe" ("/c " ++ Command) r.1 ReturnCode])
  else if W.PLATFORM_MAC || W.PLATFORM_LINUX then
    let Command := "rm -rf \"" ++ DirectoryPath ++ "\""
    let r := W.ExecProcess s "/bin/sh" ("-c \"" ++ Command ++ "\"")
    let ReturnCode : Int := r.2.1.getD (-1)
    (r.1 && ReturnCode == 0, r.2.2,
      [Event.ExecProcess "/bin/sh" ("-c \"" ++ Command ++ "\"") r.1 ReturnCode])
  else
    (false, s, [])

/-! ## `PerformCleanupWork` -/

/-- The three locals of `PerformCleanupWork` that are handed to
`OnCleanupCompleted`. -/
structure Cleanup where
  bCleanupSuccess : Bool
  ErrorMessage : String
  DeletedFolders : Int
  deriving DecidableEq, Repr

/-- Strategy B as written in the source:
`DeleteDirectoryContents(FolderPath) && FileManager.DeleteDirectory(*FolderPath, true, false)`. -/
def manualDelete (W : World σ) (fuel : Nat) (s : σ) (FolderPath : String) :
    Option (Bool × σ × List Event) :=
  match DeleteDirectoryContents W fuel s FolderPath with
  | none => none
  | some (ok, s1, t1) =>
    if ok then
      let r := W.DeleteDirectory s1 FolderPath true false
      some (r.1, r.2, t1 ++ [Event.DeleteDirectory FolderPath true false r.1])
    else some (false, s1, t1)

/-- The body of the loop of `PerformCleanupWork` for one `FolderPath`. -/
def cleanupFolder (W : World σ) (fuel : Nat) (c : Cleanup) (s : σ) (FolderPath : String) :
    Option (Cleanup × σ × List Event) :=
  if W.DirectoryExists s FolderPath then
    let a := W.DeleteDirectory s FolderPath false true
    let tA := [Event.DirectoryExists FolderPath true,
      Event.UE_LOG .Log ("Attempting to delete folder: " ++ FolderPath),
      Event.DeleteDirectory FolderPath false true a.1]
    match (if !a.1 then manualDelete W fuel a.2 FolderPath else some (a.1, a.2, [])) with
    | none => none
    | some (bDeleted1, s2, tB) =>
      let k := if !bDeleted1 then ForceDeleteDirectory W s2 FolderPath else (bDeleted1, s2, [])
      if k.1 then
        some ({ c with DeletedFolders := wrapInt32 (c.DeletedFolders + 1) }, k.2.1,
          tA ++ tB ++ k.2.2 ++ [Event.UE_LOG .Log ("Successfully deleted: " ++ FolderPath)])
      else
        some ({ c with
            bCleanupSuccess := false
            ErrorMessage := c.ErrorMessage ++ ("Failed to delete: " ++ FolderPath ++ "\n") },
          k.2.1,
          tA ++ tB ++ k.2.2 ++ [Event.UE_LOG .Error ("Failed to delete folder: " ++ FolderPath)])
  else
    some (c, s, [Event.DirectoryExists FolderPath false,
      Event.UE_LOG .Log ("Folder does not exist, skipping: " ++ FolderPath)])

/-- The loop of `PerformCleanupWork` over `FoldersToDelete`. -/
def cleanupLoop (W : World σ) (fuel : Nat) : List String → Cleanup → σ →
    Option (Cleanup × σ × List Event)
  | [], c, s => some (c, s, [])
  | FolderPath :: rest, c, s =>
    match cleanupFolder W fuel c s FolderPath with
    | none => none
    | some (c1, s1, t1) =>
      match cleanupLoop W fuel rest c1 s1 with
      | none => none
      | some (c2, s2, t2) => some (c2, s2, t1 ++ t2)

/-- `FCleanCacheEditorModule::PerformCleanupWork`: the values passed to
`OnCleanupCompleted`, the final filesystem state and the engine calls made. -/
def PerformCleanupWork (W : World σ) (fuel : Nat) (s : σ) (FoldersToDelete : List String) :
    Option (Cleanup × σ × List Event) :=
  cleanupLoop W fuel FoldersToDelete
    { bCleanupSuccess := true, ErrorMessage := "", DeletedFolders := 0 } s

/-! ## `OnCleanupCompleted` -/

/-- `SNotificationItem::ECompletionState`. -/
inductive ECompletionState
  | CS_None
  | CS_Pending
  | CS_Success
  | CS_Fail
  deriving DecidableEq, Repr

/-- What `OnCleanupCompleted` does to the editor. -/
inductive HostAction
  | ShowNotification (Message : String) (CompletionState : ECompletionState)
  | SetTimerRestartEditor (Seconds : Nat)
  | MessageDialogOpen (Message : String)
  | RestartEditor
  deriving DecidableEq, Repr

/-- The editor as seen by `OnCleanupCompleted`: whether `GetWorld()` is
non-null, whether the user answers `Yes` in the dialog, and the rendering of
`FText::AsNumber`. -/
structure Editor where
  HasWorld : Bool
  AnswerYes : Bool
  AsNumber : Int → String

/-- `FCleanCacheEditorModule::OnCleanupCompleted`. -/
def OnCleanupCompleted (E : Editor) (bSuccess : Bool) (DeletedFolders : Int)
    (ErrorMessage : String) : List HostAction :=
  if bSuccess && decide (DeletedFolders > 0) then
    HostAction.ShowNotification
        ("Successfully cleaned up " ++ E.AsNumber DeletedFolders ++
          " folders. Restarting editor in 3 seconds...") .CS_Success ::
      (if E.HasWorld then [HostAction.SetTimerRestartEditor 3] else [])
  else if DeletedFolders == 0 then
    [HostAction.ShowNotification "No cache folders found to clean up." .CS_None]
  else
    HostAction.ShowNotification ("Cleanup completed with errors:\n" ++ ErrorMessage) .CS_Fail ::
      HostAction.MessageDialogOpen
          "Some files could not be deleted. Do you still want to restart the editor?" ::
        (if E.AnswerYes then [HostAction.RestartEditor] else [])

/-! ## The per-path state machine of the specification -/

/-- Terminal states of a path. -/
inductive Terminal
  | Skipped
  | Deleted
  | Failed
  deriving DecidableEq, Repr

/-- The state machine of the specification for one path:
`NotChecked -> Exists? -> {Skipped | AttemptA -> {Deleted | AttemptB ->
{Deleted | AttemptC -> {Deleted | Failed}}}}`, where A is the bulk
`DeleteDirectory`, B the manual removal and C the external force-delete. -/
def pathStateMachine (W : World σ) (fuel : Nat) (s : σ) (p : String) : Option (Terminal × σ) :=
  if W.DirectoryExists s p = false then some (.Skipped, s)
  else
    let a := W.DeleteDirectory s p false true
    if a.1 then some (.Deleted, a.2)
    else
      match manualDelete W fuel a.2 p with
      | none => none
      | some (b, s1, _) =>
        if b then some (.Deleted, s1)
        else
          let k := ForceDeleteDirectory W s1 p
          if k.1 then some (.Deleted, k.2.1) else some (.Failed, k.2.1)

/-- The state machine run over a list of paths in input order: the terminal
state of every path and the final filesystem state. -/
def terminalStates (W : World σ) (fuel : Nat) : List String → σ → Option (List Terminal × σ)
  | [], s => some ([], s)
  | p :: rest, s =>
    match pathStateMachine W fuel s p with
    | none => none
    | some (t, s1) =>
      match terminalStates W fuel rest s1 with
      | none => none
      | some (ts, s2) => some (t :: ts, s2)

/-- The outcome of the specification after one more path reached terminal
state `t`: the count of deleted directories and the failure text. -/
def record (c : Cleanup) (p : String) : Terminal → Cleanup
  | .Skipped => c
  | .Deleted => { c with DeletedFolders := wrapInt32 (c.DeletedFolders + 1) }
  | .Failed => { c with
      bCleanupSuccess := false
      ErrorMessage := c.ErrorMessage ++ ("Failed to delete: " ++ p ++ "\n") }

/-- The paths of a classified list that ended in terminal state `t`, in order. -/
def pathsOf (t : Terminal) (zs : List (String × Terminal)) : List String :=
  (zs.filter (fun x => x.2 = t)).map Prod.fst

/-- The paths of the input that ended in terminal state `t`, in input order. -/
def pathsIn (t : Terminal) (paths : List String) (ts : List Terminal) : List String :=
  pathsOf t (paths.zip ts)

/-- The failure entry appended to `ErrorMessage` for a failed path. -/
def failureEntry (p : String) : String := "Failed to delete: " ++ p ++ "\n"

/-- The failure text: `init` followed by one entry per failed path, in order. -/
def failureText (init : String) (failed : List String) : String :=
  failed.foldl (fun acc p => acc ++ failureEntry p) init

/-- The outcome of the specification after a classified list of paths. -/
def recordList (c : Cleanup) (zs : List (String × Terminal)) : Cleanup :=
  zs.foldl (fun c x => record c x.1 x.2) c

/-- The outcome of the specification after the paths reached the terminal
states `ts`, starting from `c`. -/
def recordAll (c : Cleanup) (paths : List String) (ts : List Terminal) : Cleanup :=
  recordList c (paths.zip ts)

/-! ## Reading the engine calls -/

/-- The existence checks among the engine calls: path and reported result. -/
def existenceChecks (tr : List Event) : List (String × Bool) :=
  tr.filterMap (fun e => match e with
    | .DirectoryExists p r => some (p, r)
    | _ => none)

/-- The paths on which the bulk removal (Strategy A) was called. -/
def bulkDeletes (tr : List Event) : List String :=
  tr.filterMap (fun e => match e with
    | .DeleteDirectory p false true _ => some p
    | _ => none)

/-- The files on which `Delete` was called. -/
def fileDeletes (tr : List Event) : List String :=
  tr.filterMap (fun e => match e with
    | .Delete f _ _ _ _ => some f
    | _ => none)

/-- The listing of regular files made at the start of `DeleteDirectoryContents`. -/
@[reducible] def listedFiles (W : World σ) (s : σ) (DirectoryPath : String) : List String :=
  W.FindFiles s (W.PathAppend DirectoryPath "*") true false

/-- The listing of subdirectories made by `DeleteDirectoryContents` once the
files were processed. -/
@[reducible] def listedSubDirs (W : World σ) (s : σ) (DirectoryPath : String) : List String :=
  W.FindFiles (deleteFiles W DirectoryPath (listedFiles W s DirectoryPath) s).1
    (W.PathAppend DirectoryPath "*") false true

/-- The shell commands among the engine calls. -/
def shellCalls (tr : List Event) : List (String × String) :=
  tr.filterMap (fun e => match e with
    | .ExecProcess u a _ _ => some (u, a)
    | _ => none)

/-- The events `DeleteDirectoryContents` can emit: listings, file deletions,
warnings, and non-recursive removals that need not exist. -/
def Event.isWalk : Event → Bool
  | .FindFiles _ _ _ _ => true
  | .Delete _ _ _ _ _ => true
  | .UE_LOG .Warning _ => true
  | .DeleteDirectory _ false false _ => true
  | _ => false

/-- Some strategy reported success for `p` among the calls `tr`: the bulk
removal returned true, the final non-recursive removal of Strategy B returned
true, or the child process of Strategy C was launched and exited with 0. -/
def ReportedSuccess (p : String) (tr : List Event) : Prop :=
  Event.DeleteDirectory p false true true ∈ tr ∨
  Event.DeleteDirectory p true false true ∈ tr ∨
  ∃ u a, Event.ExecProcess u a true 0 ∈ tr

/-! ## Finite directory trees -/

/-- The directory tree of the world is finite: `rank s p` bounds the nesting
depth below `p` in state `s`. Every listed subdirectory has a smaller rank than
its parent, and no engine call increases a rank (none creates directories). -/
structure FiniteTree (W : World σ) (rank : σ → String → Nat) : Prop where
  listing : ∀ s p d, d ∈ W.FindFiles s (W.PathAppend p "*") false true →
    rank s (W.PathAppend p d) < rank s p
  delete : ∀ s f a b c q, rank (W.Delete s f a b c).2 q ≤ rank s q
  deleteDirectory : ∀ s p a b q, rank (W.DeleteDirectory s p a b).2 q ≤ rank s q
  execProcess : ∀ s u a q, rank (W.ExecProcess s u a).2.2 q ≤ rank s q

/-! ## One pass of the loop body -/

/-- What one pass of the loop body did, read off the source: the existence
check, then Strategy A, then B only after A failed, then C only after B
failed as well. -/
inductive FolderRun (W : World σ) (fuel : Nat) (c : Cleanup) (s : σ) (p : String) :
    Cleanup → σ → List Event → Prop
  | skipped (h : W.DirectoryExists s p = false) :
    FolderRun W fuel c s p c s
      [Event.DirectoryExists p false,
        Event.UE_LOG .Log ("Folder does not exist, skipping: " ++ p)]
  | bulk (h : W.DirectoryExists s p = true) (hA : (W.DeleteDirectory s p false true).1 = true) :
    FolderRun W fuel c s p (record c p .Deleted) (W.DeleteDirectory s p false true).2
      [Event.DirectoryExists p true,
        Event.UE_LOG .Log ("Attempting to delete folder: " ++ p),
        Event.DeleteDirectory p false true true,
        Event.UE_LOG .Log ("Successfully deleted: " ++ p)]
  | manual (h : W.DirectoryExists s p = true)
      (hA : (W.DeleteDirectory s p false true).1 = false) (s1 : σ) (t1 : List Event)
      (hW : DeleteDirectoryContents W fuel (W.DeleteDirectory s p false true).2 p
        = some (true, s1, t1))
      (hB : (W.DeleteDirectory s1 p true false).1 = true) :
    FolderRun W fuel c s p (record c p .Deleted) (W.DeleteDirectory s1 p true false).2
      ([Event.DirectoryExists p true,
        Event.UE_LOG .Log ("Attempting to delete folder: " ++ p),
        Event.DeleteDirectory p false true false] ++
        (t1 ++ [Event.DeleteDirectory p true false true]) ++ [] ++
        [Event.UE_LOG .Log ("Successfully deleted: " ++ p)])
  | forced (h : W.DirectoryExists s p = true)
      (hA : (W.DeleteDirectory s p false true).1 = false) (s1 : σ) (t1 : List Event)
      (hW : DeleteDirectoryContents W fuel (W.DeleteDirectory s p false true).2 p
        = some (true, s1, t1))
      (hB : (W.DeleteDirectory s1 p true false).1 = false)
      (hC : (ForceDeleteDirectory W (W.DeleteDirectory s1 p true false).2 p).1 = true) :
    FolderRun W fuel c s p (record c p .Deleted)
      (ForceDeleteDirectory W (W.DeleteDirectory s1 p true false).2 p).2.1
      ([Event.DirectoryExists p true,
        Event.UE_LOG .Log ("Attempting to delete folder: " ++ p),
        Event.DeleteDirectory p false true false] ++
        (t1 ++ [Event.DeleteDirectory p true false false]) ++
        (ForceDeleteDirectory W (W.DeleteDirectory s1 p true false).2 p).2.2 ++
        [Event.UE_LOG .Log ("Successfully deleted: " ++ p)])
  | failed (h : W.DirectoryExists s p = true)
      (hA : (W.DeleteDirectory s p false true).1 = false) (s1 : σ) (t1 : List Event)
      (hW : DeleteDirectoryContents W fuel (W.DeleteDirectory s p false true).2 p
        = some (true, s1, t1))
      (hB : (W.DeleteDirectory s1 p true false).1 = false)
      (hC : (ForceDeleteDirectory W (W.DeleteDirectory s1 p true false).2 p).1 = false) :
    FolderRun W fuel c s p (record c p .Failed)
      (ForceDeleteDirectory W (W.DeleteDirectory s1 p true false).2 p).2.1
      ([Event.DirectoryExists p true,
        Event.UE_LOG .Log ("Attempting to delete folder: " ++ p),
        Event.DeleteDirectory p false true false] ++
        (t1 ++ [Event.DeleteDirectory p true false false]) ++
        (ForceDeleteDirectory W (W.DeleteDirectory s1 p true false).2 p).2.2 ++
        [Event.UE_LOG .Error ("Failed to delete folder: " ++ p)])

/-! ## Assumptions on the engine -/

/-- A relation between an earlier and a later filesystem state that every
mutating engine call respects. -/
structure Preserves (W : World σ) (R : σ → σ → Prop) : Prop where
  refl : ∀ s, R s s
  trans : ∀ a b c, R a b → R b c → R a c
  delete : ∀ s f a b c, R s (W.Delete s f a b c).2
  deleteDirectory : ∀ s p a b, R s (W.DeleteDirectory s p a b).2
  execProcess : ∀ s u a, R s (W.ExecProcess s u a).2.2

/-- The engine reports removals truthfully and never creates a directory: a
removal that reports success leaves the path non-existent, and a path that
does not exist still does not exist after any mutating call. -/
structure Truthful (W : World σ) : Prop where
  deleteDirectory : ∀ s p a b, (W.DeleteDirectory s p a b).1 = true →
    W.DirectoryExists (W.DeleteDirectory s p a b).2 p = false
  forceDelete : ∀ s p, (ForceDeleteDirectory W s p).1 = true →
    W.DirectoryExists (ForceDeleteDirectory W s p).2.1 p = false
  stableDelete : ∀ s f a b c q, W.DirectoryExists s q = false →
    W.DirectoryExists (W.Delete s f a b c).2 q = false
  stableDeleteDirectory : ∀ s p a b q, W.DirectoryExists s q = false →
    W.DirectoryExists (W.DeleteDirectory s p a b).2 q = false
  stableExecProcess : ∀ s u a q, W.DirectoryExists s q = false →
    W.DirectoryExists (W.ExecProcess s u a).2.2 q = false

/-- The paths of a list are independent: for two different paths of the list,
running the state machine on one and then on the other, from any state, gives
the same two terminal states and the same final state in either order. -/
def Independent (W : World σ) (fuel : Nat) (paths : List String) : Prop :=
  ∀ p ∈ paths, ∀ q ∈ paths, p ≠ q → ∀ s tp s1 tq s2,
    pathStateMachine W fuel s p = some (tp, s1) →
    pathStateMachine W fuel s1 q = some (tq, s2) →
    ∃ s3, pathStateMachine W fuel s q = some (tq, s3) ∧
      pathStateMachine W fuel s3 p = some (tp, s2)

/-! ## Concrete engines -/

/-- A filesystem of directories without content. The state lists the existing
directories; a directory in `locked` cannot be removed by the engine; no shell
command succeeds. -/
def flatFS (locked : List String) : World (List String) where
  DirectoryExists := fun s p => decide (p ∈ s)
  DeleteDirectory := fun s p RequireExists _ =>
    if p ∈ s then (if p ∈ locked then (false, s) else (true, s.filter (fun q => q ≠ p)))
    else (!RequireExists, s)
  FindFiles := fun _ _ _ _ => []
  Delete := fun s _ _ _ _ => (true, s)
  ExecProcess := fun s _ _ => (false, none, s)
  PathAppend := fun p q => p ++ "/" ++ q
  PLATFORM_WINDOWS := false
  PLATFORM_MAC := false
  PLATFORM_LINUX := true

/-- The entries of the tree below `/proj/Saved`: two files, one of them
locked, and the subdirectory `Logs` holding one file. -/
def savedEntries : List String :=
  ["/proj/Saved", "/proj/Saved/a.log", "/proj/Saved/lock.tmp", "/proj/Saved/Logs",
    "/proj/Saved/Logs/x.log"]

/-- Whether `q` lies below the directory `p`. -/
def below (p q : String) : Bool := (p ++ "/").toList.isPrefixOf q.toList

/-- An in-memory engine over the tree `savedEntries`; the state lists the
entries still present. `lock.tmp` is locked: deleting it reports failure, and
the bulk removal of a directory above it fails. When `lockVanishes`, the file
is gone after the failed delete (its owner removed it). The non-recursive
removal needs an empty directory. The shell reports `shell` and empties the
tree when `shellRemoves`. -/
def savedTree (lockVanishes : Bool) (shell : Bool × Option Int) (shellRemoves : Bool) :
    World (List String) where
  DirectoryExists := fun s p => (p == "/proj/Saved" || p == "/proj/Saved/Logs") && s.contains p
  DeleteDirectory := fun s p RequireExists Tree =>
    if s.contains p then
      if Tree then
        if s.any (fun q => q == "/proj/Saved/lock.tmp" && below p q) then (false, s)
        else (true, s.filter (fun q => !(q == p || below p q)))
      else if s.any (fun q => below p q) then (false, s)
      else (true, s.erase p)
    else (!RequireExists, s)
  FindFiles := fun s pat Files Directories =>
    if pat = "/proj/Saved/*" then
      (if Files then ["a.log", "lock.tmp"].filter (fun n => s.contains ("/proj/Saved/" ++ n))
        else []) ++
      (if Directories then ["Logs"].filter (fun n => s.contains ("/proj/Saved/" ++ n)) else [])
    else if pat = "/proj/Saved/Logs/*" then
      (if Files then ["x.log"].filter (fun n => s.contains ("/proj/Saved/Logs/" ++ n)) else [])
    else []
  Delete := fun s f _ _ _ =>
    if f = "/proj/Saved/lock.tmp" then (false, if lockVanishes then s.erase f else s)
    else (true, s.erase f)
  ExecProcess := fun s _ _ => (shell.1, shell.2, if shellRemoves then [] else s)
  PathAppend := fun p q => p ++ "/" ++ q
  PLATFORM_WINDOWS := false
  PLATFORM_MAC := false
  PLATFORM_LINUX := true

/-- The nesting depth below a path of the tree `savedEntries`. -/
def savedRank : List String → String → Nat :=
  fun _ p => if p = "/proj/Saved" then 1 else 0

/-- A filesystem of possibly nested directories. The state lists the existing
directories; the bulk removal of a directory removes it together with every
directory below it, the non-recursive removal needs it to be empty. -/
def nestedFS : World (List String) where
  DirectoryExists := fun s p => s.contains p
  DeleteDirectory := fun s p RequireExists Tree =>
    if s.contains p then
      if Tree then
        (true, s.filter (fun q => !(q == p || below p q)))
      else if s.any (fun q => below p q) then (false, s)
      else (true, s.erase p)
    else (!RequireExists, s)
  FindFiles := fun _ _ _ _ => []
  Delete := fun s _ _ _ _ => (true, s)
  ExecProcess := fun s _ _ => (false, none, s)
  PathAppend := fun p q => p ++ "/" ++ q
  PLATFORM_WINDOWS := false
  PLATFORM_MAC := false
  PLATFORM_LINUX := true

/-- The project directories present in the examples on `flatFS`. -/
def demoState : List String := ["/proj/Intermediate", "/proj/Saved"]

/-- The input of the examples on `flatFS`. -/
def demoPaths : List String := ["/proj/Intermediate", "/proj/DoesNotExist", "/proj/Saved"]

/-! ## Basic facts -/

theorem wrapInt32_of_range {x : Int} (h0 : -2147483648 ≤ x) (h1 : x < 2147483648) :
    wrapInt32 x = x := by
  unfold wrapInt32; omega

theorem wrapInt32_succ_ne (x : Int) : wrapInt32 (x + 1) ≠ x := by
  unfold wrapInt32; omega

theorem deleteFiles_rank {W : World σ} {rank : σ → String → Nat} (hft : FiniteTree W rank)
    (dir : String) (L : List String) (s : σ) (q : String) :
    rank (deleteFiles W dir L s).1 q ≤ rank s q := by
  induction L generalizing s with
  | nil => simp [deleteFiles]
  | cons f rest ih =>
    simp only [deleteFiles]
    exact le_trans (ih _) (hft.delete _ _ _ _ _ _)

theorem deleteSubDirs_total {W : World σ} {rank : σ → String → Nat} (hft : FiniteTree W rank)
    (recurse : σ → String → Option (Bool × σ × List Event)) (n : Nat)
    (hrec : ∀ s p, rank s p < n → ∃ s1 t, recurse s p = some (true, s1, t) ∧
      ∀ q, rank s1 q ≤ rank s q)
    (dir : String) (L : List String) (s : σ)
    (hL : ∀ d ∈ L, rank s (W.PathAppend dir d) < n) :
    ∃ s1 t, deleteSubDirs W recurse dir L s = some (true, s1, t) ∧
      ∀ q, rank s1 q ≤ rank s q := by
  induction L generalizing s with
  | nil => exact ⟨s, [], rfl, fun _ => le_rfl⟩
  | cons d rest ih =>
    obtain ⟨s1, t1, h1, hr1⟩ := hrec s (W.PathAppend dir d) (hL d (List.mem_cons_self _ _))
    have hmono : ∀ q, rank (W.DeleteDirectory s1 (W.PathAppend dir d) false false).2 q ≤ rank s q :=
      fun q => le_trans (hft.deleteDirectory _ _ _ _ _) (hr1 q)
    obtain ⟨s3, t3, h3, hr3⟩ := ih (W.DeleteDirectory s1 (W.PathAppend dir d) false false).2
      (fun e he => lt_of_le_of_lt (hmono _) (hL e (List.mem_cons_of_mem _ he)))
    refine ⟨s3, t1 ++ Event.DeleteDirectory (W.PathAppend dir d) false false
      (W.DeleteDirectory s1 (W.PathAppend dir d) false false).1 :: t3, ?_,
      fun q => le_trans (hr3 q) (hmono q)⟩
    simp [deleteSubDirs, h1, h3]

theorem DeleteDirectoryContents_total {W : World σ} {rank : σ → String → Nat}
    (hft : FiniteTree W rank) (fuel : Nat) (s : σ) (p : String) (h : rank s p < fuel) :
    ∃ s1 t, DeleteDirectoryContents W fuel s p = some (true, s1, t) ∧
      ∀ q, rank s1 q ≤ rank s q := by
  induction fuel generalizing s p with
  | zero => omega
  | succ n ih =>
    have hd := deleteFiles_rank hft p (W.FindFiles s (W.PathAppend p "*") true false) s
    obtain ⟨s2, t2, h2, hr2⟩ := deleteSubDirs_total hft (DeleteDirectoryContents W n) n ih p
      (W.FindFiles (deleteFiles W p (W.FindFiles s (W.PathAppend p "*") true false) s).1
        (W.PathAppend p "*") false true)
      (deleteFiles W p (W.FindFiles s (W.PathAppend p "*") true false) s).1
      (fun d hdm => by
        have := hft.listing _ _ _ hdm
        have := hd p
        omega)
    exact ⟨s2, _, by simp only [DeleteDirectoryContents, h2]; rfl, fun q => le_trans (hr2 q) (hd q)⟩

/-! ## `DeleteDirectoryContents` never reports failure -/

theorem deleteSubDirs_false {W : World σ}
    (recurse : σ → String → Option (Bool × σ × List Event)) (dir : String)
    (L : List String) (s s1 : σ) (t : List Event)
    (h : deleteSubDirs W recurse dir L s = some (false, s1, t)) :
    ∃ d ∈ L, ∃ s2 s3 t3, recurse s2 (W.PathAppend dir d) = some (false, s3, t3) := by
  induction L generalizing s s1 t with
  | nil => simp [deleteSubDirs] at h
  | cons d rest ih =>
    simp only [deleteSubDirs] at h
    cases hr : recurse s (W.PathAppend dir d) with
    | none => simp [hr] at h
    | some r =>
      obtain ⟨ok, s2, t2⟩ := r
      cases ok with
      | false => exact ⟨d, List.mem_cons_self _ _, s, s2, t2, hr⟩
      | true =>
        simp only [hr, Bool.not_true] at h
        cases hk : deleteSubDirs W recurse dir rest
            (W.DeleteDirectory s2 (W.PathAppend dir d) false false).2 with
        | none => simp [hk] at h
        | some k =>
          obtain ⟨b, s3, t3⟩ := k
          simp only [hk] at h
          have hb : b = false := by simpa using congrArg (fun o => o.map (fun r => r.1)) h
          subst hb
          obtain ⟨e, he, x⟩ := ih _ _ _ hk
          exact ⟨e, List.mem_cons_of_mem _ he, x⟩

theorem DeleteDirectoryContents_true {W : World σ} (fuel : Nat) (s : σ) (p : String)
    (b : Bool) (s1 : σ) (t : List Event)
    (h : DeleteDirectoryContents W fuel s p = some (b, s1, t)) : b = true := by
  induction fuel generalizing s p b s1 t with
  | zero => simp [DeleteDirectoryContents] at h
  | succ n ih =>
    simp only [DeleteDirectoryContents] at h
    split at h
    · simp at h
    · rename_i b2 s2 t2 hk
      cases b2 with
      | true => simpa using (congrArg (fun o => o.map (fun r => r.1)) h).symm
      | false =>
        obtain ⟨d, _, s3, s4, t4, hr⟩ := deleteSubDirs_false _ _ _ _ _ _ hk
        exact absurd (ih _ _ _ _ _ hr) (by decide)

/-! ## The events of the walk -/

theorem deleteFiles_isWalk {W : World σ} (dir : String) (L : List String) (s : σ) :
    ∀ e ∈ (deleteFiles W dir L s).2, e.isWalk = true := by
  induction L generalizing s with
  | nil => simp [deleteFiles]
  | cons f rest ih =>
    intro e he
    simp only [deleteFiles, List.mem_cons, List.mem_append] at he
    rcases he with rfl | he | he
    · rfl
    · split at he
      · simp only [List.mem_singleton] at he; subst he; rfl
      · simp at he
    · exact ih _ e he

theorem deleteSubDirs_isWalk {W : World σ}
    (recurse : σ → String → Option (Bool × σ × List Event))
    (hrec : ∀ s p b s1 t, recurse s p = some (b, s1, t) → ∀ e ∈ t, e.isWalk = true)
    (dir : String) (L : List String) (s : σ) (b : Bool) (s1 : σ) (t : List Event)
    (h : deleteSubDirs W recurse dir L s = some (b, s1, t)) :
    ∀ e ∈ t, e.isWalk = true := by
  induction L generalizing s b s1 t with
  | nil =>
    simp only [deleteSubDirs, Option.some.injEq, Prod.mk.injEq] at h
    obtain ⟨_, _, rfl⟩ := h
    simp
  | cons d rest ih =>
    simp only [deleteSubDirs] at h
    cases hr : recurse s (W.PathAppend dir d) with
    | none => simp [hr] at h
    | some r =>
      obtain ⟨ok, s2, t2⟩ := r
      have h2 := hrec _ _ _ _ _ hr
      cases ok with
      | false =>
        simp only [hr, Bool.not_false, if_true, Option.some.injEq, Prod.mk.injEq] at h
        obtain ⟨_, _, rfl⟩ := h
        exact h2
      | true =>
        simp only [hr, Bool.not_true] at h
        cases hk : deleteSubDirs W recurse dir rest
            (W.DeleteDirectory s2 (W.PathAppend dir d) false false).2 with
        | none => simp [hk] at h
        | some k =>
          obtain ⟨b3, s3, t3⟩ := k
          simp only [hk, Bool.false_eq_true, if_false, Option.some.injEq, Prod.mk.injEq] at h
          obtain ⟨_, _, rfl⟩ := h
          intro e he
          simp only [List.mem_append, List.mem_cons] at he
          rcases he with he | rfl | he
          · exact h2 e he
          · rfl
          · exact ih _ _ _ _ hk e he

theorem DeleteDirectoryContents_isWalk {W : World σ} (fuel : Nat) (s : σ) (p : String)
    (b : Bool) (s1 : σ) (t : List Event)
    (h : DeleteDirectoryContents W fuel s p = some (b, s1, t)) :
    ∀ e ∈ t, e.isWalk = true := by
  induction fuel generalizing s p b s1 t with
  | zero => simp [DeleteDirectoryContents] at h
  | succ n ih =>
    simp only [DeleteDirectoryContents] at h
    split at h
    · simp at h
    · rename_i b2 s2 t2 hk
      simp only [Option.some.injEq, Prod.mk.injEq] at h
      obtain ⟨_, _, rfl⟩ := h
      intro e he
      simp only [List.mem_cons, List.mem_append] at he
      rcases he with rfl | he | rfl | he
      · rfl
      · exact deleteFiles_isWalk _ _ _ e he
      · rfl
      · exact deleteSubDirs_isWalk _ (fun s p b s1 t => ih s p b s1 t) _ _ _ _ _ _ hk e he

theorem existenceChecks_of_isWalk (t : List Event) (h : ∀ e ∈ t, e.isWalk = true) :
    existenceChecks t = [] := by
  unfold existenceChecks
  rw [List.filterMap_eq_nil_iff]
  intro e he
  have := h e he
  cases e <;> simp_all [Event.isWalk]

theorem bulkDeletes_of_isWalk (t : List Event) (h : ∀ e ∈ t, e.isWalk = true) :
    bulkDeletes t = [] := by
  unfold bulkDeletes
  rw [List.filterMap_eq_nil_iff]
  intro e he
  have := h e he
  cases e with
  | DeleteDirectory p r tree res =>
    cases r <;> cases tree <;> simp_all [Event.isWalk]
  | _ => simp_all [Event.isWalk]

theorem not_reportedSuccess_of_isWalk (p : String) (t : List Event)
    (h : ∀ e ∈ t, e.isWalk = true) : ¬ ReportedSuccess p t := by
  rintro (hm | hm | ⟨u, a, hm⟩) <;> exact absurd (h _ hm) (by simp [Event.isWalk])

/-! ## One folder of the loop -/

theorem manualDelete_eq {W : World σ} (fuel : Nat) (s : σ) (p : String)
    (b : Bool) (s2 : σ) (t : List Event) (h : manualDelete W fuel s p = some (b, s2, t)) :
    ∃ s1 t1, DeleteDirectoryContents W fuel s p = some (true, s1, t1) ∧
      b = (W.DeleteDirectory s1 p true false).1 ∧ s2 = (W.DeleteDirectory s1 p true false).2 ∧
      t = t1 ++ [Event.DeleteDirectory p true false (W.DeleteDirectory s1 p true false).1] := by
  unfold manualDelete at h
  cases hd : DeleteDirectoryContents W fuel s p with
  | none => simp [hd] at h
  | some r =>
    obtain ⟨ok, s1, t1⟩ := r
    have hok := DeleteDirectoryContents_true _ _ _ _ _ _ hd
    subst hok
    simp only [hd, if_true, Option.some.injEq, Prod.mk.injEq] at h
    obtain ⟨rfl, rfl, rfl⟩ := h
    exact ⟨s1, t1, rfl, rfl, rfl, rfl⟩

theorem manualDelete_of_walk {W : World σ} (fuel : Nat) (s : σ) (p : String)
    (s1 : σ) (t1 : List Event) (h : DeleteDirectoryContents W fuel s p = some (true, s1, t1)) :
    manualDelete W fuel s p = some ((W.DeleteDirectory s1 p true false).1,
      (W.DeleteDirectory s1 p true false).2,
      t1 ++ [Event.DeleteDirectory p true false (W.DeleteDirectory s1 p true false).1]) := by
  simp [manualDelete, h]

theorem forceDelete_reported {W : World σ} (s : σ) (p : String) :
    (ForceDeleteDirectory W s p).1 = true ↔
      ∃ u a, Event.ExecProcess u a true 0 ∈ (ForceDeleteDirectory W s p).2.2 := by
  unfold ForceDeleteDirectory
  split
  · simp only [List.mem_singleton, Event.ExecProcess.injEq, Bool.and_eq_true, beq_iff_eq]
    constructor
    · rintro ⟨h1, h2⟩
      exact ⟨_, _, rfl, rfl, h1.symm, h2.symm⟩
    · rintro ⟨u, a, _, _, h1, h2⟩
      exact ⟨h1.symm, h2.symm⟩
  · split
    · simp only [List.mem_singleton, Event.ExecProcess.injEq, Bool.and_eq_true, beq_iff_eq]
      constructor
      · rintro ⟨h1, h2⟩
        exact ⟨_, _, rfl, rfl, h1.symm, h2.symm⟩
      · rintro ⟨u, a, _, _, h1, h2⟩
        exact ⟨h1.symm, h2.symm⟩
    · simp

theorem forceDelete_events {W : World σ} (s : σ) (p : String) :
    ∀ e ∈ (ForceDeleteDirectory W s p).2.2, ∃ u a r c, e = Event.ExecProcess u a r c := by
  unfold ForceDeleteDirectory
  split
  · intro e he
    rw [List.mem_singleton] at he
    exact ⟨_, _, _, _, he⟩
  · split
    · intro e he
      rw [List.mem_singleton] at he
      exact ⟨_, _, _, _, he⟩
    · simp

theorem cleanupFolder_run {W : World σ} (fuel : Nat) (c : Cleanup) (s : σ) (p : String)
    (c1 : Cleanup) (s1 : σ) (tr : List Event)
    (h : cleanupFolder W fuel c s p = some (c1, s1, tr)) : FolderRun W fuel c s p c1 s1 tr := by
  unfold cleanupFolder at h
  cases hE : W.DirectoryExists s p with
  | false =>
    simp only [hE, Bool.false_eq_true, if_false, Option.some.injEq, Prod.mk.injEq] at h
    obtain ⟨rfl, rfl, rfl⟩ := h
    exact FolderRun.skipped hE
  | true =>
    simp only [hE, if_true] at h
    cases hA : (W.DeleteDirectory s p false true).1 with
    | true =>
      simp only [hA, Bool.not_true, Bool.false_eq_true, if_false, if_true,
        Option.some.injEq, Prod.mk.injEq] at h
      obtain ⟨rfl, rfl, rfl⟩ := h
      exact FolderRun.bulk hE hA
    | false =>
      simp only [hA, Bool.not_false, if_true] at h
      cases hM : manualDelete W fuel (W.DeleteDirectory s p false true).2 p with
      | none => simp [hM] at h
      | some r =>
        obtain ⟨b, s2, tB⟩ := r
        obtain ⟨sw, tw, hW, rfl, rfl, rfl⟩ := manualDelete_eq _ _ _ _ _ _ hM
        simp only [hM] at h
        cases hB : (W.DeleteDirectory sw p true false).1 with
        | true =>
          simp only [hB, Bool.not_true, Bool.false_eq_true, if_false, if_true,
            Option.some.injEq, Prod.mk.injEq] at h
          obtain ⟨rfl, rfl, rfl⟩ := h
          exact FolderRun.manual hE hA sw tw hW hB
        | false =>
          simp only [hB, Bool.not_false, if_true] at h
          cases hC : (ForceDeleteDirectory W (W.DeleteDirectory sw p true false).2 p).1 with
          | true =>
            simp only [hC, if_true, Option.some.injEq, Prod.mk.injEq] at h
            obtain ⟨rfl, rfl, rfl⟩ := h
            exact FolderRun.forced hE hA sw tw hW hB hC
          | false =>
            simp only [hC, Bool.false_eq_true, if_false, Option.some.injEq, Prod.mk.injEq] at h
            obtain ⟨rfl, rfl, rfl⟩ := h
            exact FolderRun.failed hE hA sw tw hW hB hC

theorem existenceChecks_append (a b : List Event) :
    existenceChecks (a ++ b) = existenceChecks a ++ existenceChecks b := by
  simp [existenceChecks, List.filterMap_append]

theorem bulkDeletes_append (a b : List Event) :
    bulkDeletes (a ++ b) = bulkDeletes a ++ bulkDeletes b := by
  simp [bulkDeletes, List.filterMap_append]

theorem reportedSuccess_append (p : String) (a b : List Event) :
    ReportedSuccess p (a ++ b) ↔ ReportedSuccess p a ∨ ReportedSuccess p b := by
  unfold ReportedSuccess
  simp only [List.mem_append]
  constructor
  · rintro ((h | h) | (h | h) | ⟨u, x, h | h⟩)
    · exact Or.inl (Or.inl h)
    · exact Or.inr (Or.inl h)
    · exact Or.inl (Or.inr (Or.inl h))
    · exact Or.inr (Or.inr (Or.inl h))
    · exact Or.inl (Or.inr (Or.inr ⟨u, x, h⟩))
    · exact Or.inr (Or.inr (Or.inr ⟨u, x, h⟩))
  · rintro ((h | h | ⟨u, x, h⟩) | (h | h | ⟨u, x, h⟩))
    · exact Or.inl (Or.inl h)
    · exact Or.inr (Or.inl (Or.inl h))
    · exact Or.inr (Or.inr ⟨u, x, Or.inl h⟩)
    · exact Or.inl (Or.inr h)
    · exact Or.inr (Or.inl (Or.inr h))
    · exact Or.inr (Or.inr ⟨u, x, Or.inr h⟩)

theorem existenceChecks_force {W : World σ} (s : σ) (p : String) :
    existenceChecks (ForceDeleteDirectory W s p).2.2 = [] := by
  unfold existenceChecks
  rw [List.filterMap_eq_nil_iff]
  intro e he
  obtain ⟨u, a, r, c, rfl⟩ := forceDelete_events s p e he
  rfl

theorem bulkDeletes_force {W : World σ} (s : σ) (p : String) :
    bulkDeletes (ForceDeleteDirectory W s p).2.2 = [] := by
  unfold bulkDeletes
  rw [List.filterMap_eq_nil_iff]
  intro e he
  obtain ⟨u, a, r, c, rfl⟩ := forceDelete_events s p e he
  rfl

theorem reportedSuccess_force {W : World σ} (s : σ) (p : String) :
    ReportedSuccess p (ForceDeleteDirectory W s p).2.2 ↔ (ForceDeleteDirectory W s p).1 = true := by
  rw [forceDelete_reported]
  constructor
  · rintro (h | h | h)
    · obtain ⟨u, a, r, c, he⟩ := forceDelete_events s p _ h
      cases he
    · obtain ⟨u, a, r, c, he⟩ := forceDelete_events s p _ h
      cases he
    · exact h
  · exact fun h => Or.inr (Or.inr h)

/-- The terminal state reached by one pass of the loop body, with what the
pass did to the outcome and which engine calls identify it. -/
theorem folderRun_terminal {W : World σ} {fuel : Nat} {c : Cleanup} {s : σ} {p : String}
    {c1 : Cleanup} {s1 : σ} {tr : List Event} (h : FolderRun W fuel c s p c1 s1 tr) :
    ∃ t, pathStateMachine W fuel s p = some (t, s1) ∧ c1 = record c p t ∧
      existenceChecks tr = [(p, W.DirectoryExists s p)] ∧
      bulkDeletes tr = (if W.DirectoryExists s p then [p] else []) ∧
      (t = .Skipped ↔ W.DirectoryExists s p = false) ∧
      (t = .Deleted ↔ ReportedSuccess p tr) := by
  cases h with
  | skipped hE =>
    refine ⟨.Skipped, ?_, rfl, ?_, ?_, ?_, ?_⟩
    · simp [pathStateMachine, hE]
    · simp [existenceChecks, hE]
    · simp [bulkDeletes, hE]
    · simp [hE]
    · simp [ReportedSuccess]
  | bulk hE hA =>
    refine ⟨.Deleted, ?_, rfl, ?_, ?_, ?_, ?_⟩
    · simp [pathStateMachine, hE, hA]
    · simp [existenceChecks, hE]
    · simp [bulkDeletes, hE]
    · simp [hE]
    · simp [ReportedSuccess]
  | manual hE hA sw tw hW hB =>
    have hw := DeleteDirectoryContents_isWalk _ _ _ _ _ _ hW
    refine ⟨.Deleted, ?_, rfl, ?_, ?_, ?_, ?_⟩
    · simp [pathStateMachine, hE, hA, manualDelete_of_walk _ _ _ _ _ hW, hB]
    · simp only [existenceChecks_append, existenceChecks_of_isWalk _ hw]
      simp [existenceChecks, hE]
    · simp only [bulkDeletes_append, bulkDeletes_of_isWalk _ hw]
      simp [bulkDeletes, hE]
    · simp [hE]
    · simp [ReportedSuccess]
  | forced hE hA sw tw hW hB hC =>
    have hw := DeleteDirectoryContents_isWalk _ _ _ _ _ _ hW
    refine ⟨.Deleted, ?_, rfl, ?_, ?_, ?_, ?_⟩
    · simp [pathStateMachine, hE, hA, manualDelete_of_walk _ _ _ _ _ hW, hB, hC]
    · simp only [existenceChecks_append, existenceChecks_of_isWalk _ hw, existenceChecks_force]
      simp [existenceChecks, hE]
    · simp only [bulkDeletes_append, bulkDeletes_of_isWalk _ hw, bulkDeletes_force]
      simp [bulkDeletes, hE]
    · simp [hE]
    · simp only [reportedSuccess_append, reportedSuccess_force, hC]
      simp
  | failed hE hA sw tw hW hB hC =>
    have hw := DeleteDirectoryContents_isWalk _ _ _ _ _ _ hW
    refine ⟨.Failed, ?_, rfl, ?_, ?_, ?_, ?_⟩
    · simp [pathStateMachine, hE, hA, manualDelete_of_walk _ _ _ _ _ hW, hB, hC]
    · simp only [existenceChecks_append, existenceChecks_of_isWalk _ hw, existenceChecks_force]
      simp [existenceChecks, hE]
    · simp only [bulkDeletes_append, bulkDeletes_of_isWalk _ hw, bulkDeletes_force]
      simp [bulkDeletes, hE]
    · simp [hE]
    · simp only [reportedSuccess_append, reportedSuccess_force, hC]
      have := not_reportedSuccess_of_isWalk p tw hw
      simp [ReportedSuccess] at this ⊢
      exact this

theorem forceDelete_rank {W : World σ} {rank : σ → String → Nat} (hft : FiniteTree W rank)
    (s : σ) (p q : String) : rank (ForceDeleteDirectory W s p).2.1 q ≤ rank s q := by
  unfold ForceDeleteDirectory
  split
  · exact hft.execProcess _ _ _ _
  · split
    · exact hft.execProcess _ _ _ _
    · exact le_rfl

theorem cleanupFolder_total {W : World σ} {rank : σ → String → Nat} (hft : FiniteTree W rank)
    (fuel : Nat) (c : Cleanup) (s : σ) (p : String) (h : rank s p < fuel) :
    ∃ c1 s1 tr, cleanupFolder W fuel c s p = some (c1, s1, tr) ∧
      ∀ q, rank s1 q ≤ rank s q := by
  have hAr := hft.deleteDirectory s p false true
  obtain ⟨sw, tw, hW, hWr⟩ := DeleteDirectoryContents_total hft fuel
    (W.DeleteDirectory s p false true).2 p (lt_of_le_of_lt (hAr p) h)
  have hM := manualDelete_of_walk _ _ _ _ _ hW
  have hBr := hft.deleteDirectory sw p true false
  have hCr := forceDelete_rank hft (W.DeleteDirectory sw p true false).2 p
  unfold cleanupFolder
  cases hE : W.DirectoryExists s p with
  | false =>
    simp only [Bool.false_eq_true, if_false]
    exact ⟨_, _, _, rfl, fun q => le_rfl⟩
  | true =>
    cases hA : (W.DeleteDirectory s p false true).1 with
    | true =>
      simp only [hA, if_true, Bool.not_true, Bool.false_eq_true, if_false]
      exact ⟨_, _, _, rfl, hAr⟩
    | false =>
      simp only [hA, if_true, Bool.not_false, hM]
      cases hB : (W.DeleteDirectory sw p true false).1 with
      | true =>
        simp only [hB, Bool.not_true, Bool.false_eq_true, if_false, if_true]
        exact ⟨_, _, _, rfl, fun q => le_trans (hBr q) (le_trans (hWr q) (hAr q))⟩
      | false =>
        simp only [hB, Bool.not_false, if_true]
        have hr : ∀ q, rank (ForceDeleteDirectory W (W.DeleteDirectory sw p true false).2 p).2.1 q
            ≤ rank s q :=
          fun q => le_trans (hCr q) (le_trans (hBr q) (le_trans (hWr q) (hAr q)))
        cases hC : (ForceDeleteDirectory W (W.DeleteDirectory sw p true false).2 p).1 with
        | true =>
          simp only [if_true]
          exact ⟨_, _, _, rfl, hr⟩
        | false =>
          simp only [Bool.false_eq_true, if_false]
          exact ⟨_, _, _, rfl, hr⟩

theorem cleanupFolder_of_stateMachine {W : World σ} (fuel : Nat) (c : Cleanup) (s : σ)
    (p : String) (t : Terminal) (s1 : σ) (h : pathStateMachine W fuel s p = some (t, s1)) :
    ∃ tr, cleanupFolder W fuel c s p = some (record c p t, s1, tr) := by
  have hsome : (cleanupFolder W fuel c s p).isSome = true := by
    unfold pathStateMachine at h
    unfold cleanupFolder
    cases hE : W.DirectoryExists s p with
    | false => simp
    | true =>
      cases hA : (W.DeleteDirectory s p false true).1 with
      | true => simp [hA]
      | false =>
        simp only [hE, hA, Bool.true_eq_false, if_false, Bool.false_eq_true] at h
        cases hM : manualDelete W fuel (W.DeleteDirectory s p false true).2 p with
        | none => simp [hM] at h
        | some r =>
          obtain ⟨b, s2, tB⟩ := r
          simp only [hA, if_true, Bool.not_false, hM]
          split <;> split <;> rfl
  rw [Option.isSome_iff_exists] at hsome
  obtain ⟨⟨c2, s2, tr⟩, hr⟩ := hsome
  obtain ⟨t2, h2, hc, _⟩ := folderRun_terminal (cleanupFolder_run _ _ _ _ _ _ _ hr)
  rw [h] at h2
  simp only [Option.some.injEq, Prod.mk.injEq] at h2
  obtain ⟨rfl, rfl⟩ := h2
  exact ⟨tr, by rw [hr, hc]⟩

theorem cleanupLoop_terminal {W : World σ} (fuel : Nat) (paths : List String) (c : Cleanup)
    (s : σ) (c1 : Cleanup) (s1 : σ) (tr : List Event)
    (h : cleanupLoop W fuel paths c s = some (c1, s1, tr)) :
    ∃ ts, terminalStates W fuel paths s = some (ts, s1) ∧ ts.length = paths.length ∧
      c1 = recordAll c paths ts ∧
      existenceChecks tr = paths.zip (ts.map (fun t => decide (t ≠ .Skipped))) ∧
      bulkDeletes tr =
        ((paths.zip ts).filter (fun x => decide (x.2 ≠ .Skipped))).map Prod.fst := by
  induction paths generalizing c s c1 s1 tr with
  | nil =>
    simp only [cleanupLoop, Option.some.injEq, Prod.mk.injEq] at h
    obtain ⟨rfl, rfl, rfl⟩ := h
    exact ⟨[], rfl, rfl, rfl, rfl, rfl⟩
  | cons p rest ih =>
    simp only [cleanupLoop] at h
    cases hF : cleanupFolder W fuel c s p with
    | none => simp [hF] at h
    | some r =>
      obtain ⟨c2, s2, t2⟩ := r
      simp only [hF] at h
      cases hL : cleanupLoop W fuel rest c2 s2 with
      | none => simp [hL] at h
      | some r3 =>
        obtain ⟨c3, s3, t3⟩ := r3
        simp only [hL, Option.some.injEq, Prod.mk.injEq] at h
        obtain ⟨rfl, rfl, rfl⟩ := h
        obtain ⟨t, hpsm, hc, hex, hbulk, hsk, _⟩ := folderRun_terminal (cleanupFolder_run _ _ _ _ _ _ _ hF)
        obtain ⟨ts, hts, hlen, hc3, hex3, hbulk3⟩ := ih _ _ _ _ _ hL
        refine ⟨t :: ts, ?_, ?_, ?_, ?_, ?_⟩
        · simp [terminalStates, hpsm, hts]
        · simp [hlen]
        · rw [hc3, hc]; rfl
        · rw [existenceChecks_append, hex, hex3]
          have : W.DirectoryExists s p = decide (t ≠ .Skipped) := by
            cases hE : W.DirectoryExists s p
            · simp [hsk.2 hE]
            · have : t ≠ .Skipped := fun ht => by simp [hsk.1 ht] at hE
              simp [this]
          simp [this]
        · rw [bulkDeletes_append, hbulk, hbulk3]
          cases hE : W.DirectoryExists s p
          · simp [hsk.2 hE]
          · have : t ≠ .Skipped := fun ht => by simp [hsk.1 ht] at hE
            simp [this]

theorem cleanupLoop_total {W : World σ} {rank : σ → String → Nat} (hft : FiniteTree W rank)
    (fuel : Nat) (paths : List String) (c : Cleanup) (s : σ)
    (h : ∀ p ∈ paths, rank s p < fuel) :
    ∃ c1 s1 tr, cleanupLoop W fuel paths c s = some (c1, s1, tr) := by
  induction paths generalizing c s with
  | nil => exact ⟨c, s, [], rfl⟩
  | cons p rest ih =>
    obtain ⟨c2, s2, t2, h2, hr⟩ := cleanupFolder_total hft fuel c s p (h p (List.mem_cons_self _ _))
    obtain ⟨c3, s3, t3, h3⟩ := ih c2 s2
      (fun q hq => lt_of_le_of_lt (hr q) (h q (List.mem_cons_of_mem _ hq)))
    exact ⟨c3, s3, t2 ++ t3, by simp [cleanupLoop, h2, h3]⟩

theorem cleanupLoop_of_terminalStates {W : World σ} (fuel : Nat) (paths : List String)
    (c : Cleanup) (s : σ) (ts : List Terminal) (s1 : σ)
    (h : terminalStates W fuel paths s = some (ts, s1)) :
    ∃ tr, cleanupLoop W fuel paths c s = some (recordAll c paths ts, s1, tr) := by
  induction paths generalizing c s ts s1 with
  | nil =>
    simp only [terminalStates, Option.some.injEq, Prod.mk.injEq] at h
    obtain ⟨rfl, rfl⟩ := h
    exact ⟨[], rfl⟩
  | cons p rest ih =>
    simp only [terminalStates] at h
    cases hP : pathStateMachine W fuel s p with
    | none => simp [hP] at h
    | some r =>
      obtain ⟨t, s2⟩ := r
      simp only [hP] at h
      cases hT : terminalStates W fuel rest s2 with
      | none => simp [hT] at h
      | some r3 =>
        obtain ⟨ts3, s3⟩ := r3
        simp only [hT, Option.some.injEq, Prod.mk.injEq] at h
        obtain ⟨rfl, rfl⟩ := h
        obtain ⟨t2, h2⟩ := cleanupFolder_of_stateMachine fuel c s p t s2 hP
        obtain ⟨t3, h3⟩ := ih (record c p t) s2 ts3 s3 hT
        exact ⟨t2 ++ t3, by simp [cleanupLoop, h2, h3]; rfl⟩

/-! ## The outcome as a function of the terminal states -/

theorem recordList_ErrorMessage (c : Cleanup) (zs : List (String × Terminal)) :
    (recordList c zs).ErrorMessage = failureText c.ErrorMessage (pathsOf .Failed zs) := by
  induction zs generalizing c with
  | nil => rfl
  | cons z rest ih =>
    obtain ⟨p, t⟩ := z
    simp only [recordList, List.foldl_cons] at ih ⊢
    rw [ih]
    cases t <;> simp [record, pathsOf, failureText, failureEntry]

theorem recordList_bCleanupSuccess (c : Cleanup) (zs : List (String × Terminal)) :
    (recordList c zs).bCleanupSuccess = (c.bCleanupSuccess && (pathsOf .Failed zs).isEmpty) := by
  induction zs generalizing c with
  | nil => simp [recordList, pathsOf]
  | cons z rest ih =>
    obtain ⟨p, t⟩ := z
    simp only [recordList, List.foldl_cons] at ih ⊢
    rw [ih]
    cases t <;> simp [record, pathsOf]

theorem recordList_DeletedFolders (c : Cleanup) (zs : List (String × Terminal))
    (h0 : 0 ≤ c.DeletedFolders) (h1 : c.DeletedFolders + zs.length < 2147483648) :
    (recordList c zs).DeletedFolders = c.DeletedFolders + (pathsOf .Deleted zs).length := by
  induction zs generalizing c with
  | nil => simp [recordList, pathsOf]
  | cons z rest ih =>
    obtain ⟨p, t⟩ := z
    simp only [recordList, List.foldl_cons] at ih ⊢
    simp only [List.length_cons, Nat.cast_add, Nat.cast_one] at h1
    cases t with
    | Skipped =>
      rw [ih (record c p .Skipped) h0 (by simp only [record]; omega)]
      simp [record, pathsOf]
    | Failed =>
      rw [ih (record c p .Failed) h0 (by simp only [record]; omega)]
      simp [record, pathsOf]
    | Deleted =>
      have hw : wrapInt32 (c.DeletedFolders + 1) = c.DeletedFolders + 1 :=
        wrapInt32_of_range (by omega) (by omega)
      rw [ih (record c p .Deleted) (by simp only [record, hw]; omega)
        (by simp only [record, hw]; omega)]
      simp only [record, hw, pathsOf, List.filter_cons, decide_True, if_true, List.map_cons,
        List.length_cons, Nat.cast_add, Nat.cast_one]
      omega

theorem pathsOf_length_sum (zs : List (String × Terminal)) :
    (pathsOf .Skipped zs).length + (pathsOf .Deleted zs).length + (pathsOf .Failed zs).length
      = zs.length := by
  induction zs with
  | nil => rfl
  | cons z rest ih =>
    obtain ⟨p, t⟩ := z
    cases t <;> simp [pathsOf] at ih ⊢ <;> omega

theorem pathsOf_sublist (t : Terminal) (paths : List String) (ts : List Terminal) :
    List.Sublist (pathsIn t paths ts) paths := by
  induction paths generalizing ts with
  | nil => simp [pathsIn, pathsOf]
  | cons p rest ih =>
    cases ts with
    | nil => simp [pathsIn, pathsOf]
    | cons u us =>
      have := ih us
      simp only [pathsIn, pathsOf, List.zip_cons_cons, List.filter_cons] at this ⊢
      split
      · simpa using this
      · exact List.Sublist.cons _ this

/-! ## Relations between the state before and after, kept by every engine call -/

theorem deleteFiles_preserves {W : World σ} {R : σ → σ → Prop} (hR : Preserves W R)
    (dir : String) (L : List String) (s : σ) : R s (deleteFiles W dir L s).1 := by
  induction L generalizing s with
  | nil => exact hR.refl s
  | cons f rest ih =>
    simp only [deleteFiles]
    exact hR.trans _ _ _ (hR.delete _ _ _ _ _) (ih _)

theorem deleteSubDirs_preserves {W : World σ} {R : σ → σ → Prop} (hR : Preserves W R)
    (recurse : σ → String → Option (Bool × σ × List Event))
    (hrec : ∀ s p b s1 t, recurse s p = some (b, s1, t) → R s s1)
    (dir : String) (L : List String) (s : σ) (b : Bool) (s1 : σ) (t : List Event)
    (h : deleteSubDirs W recurse dir L s = some (b, s1, t)) : R s s1 := by
  induction L generalizing s b s1 t with
  | nil =>
    simp only [deleteSubDirs, Option.some.injEq, Prod.mk.injEq] at h
    obtain ⟨_, rfl, _⟩ := h
    exact hR.refl s
  | cons d rest ih =>
    simp only [deleteSubDirs] at h
    cases hr : recurse s (W.PathAppend dir d) with
    | none => simp [hr] at h
    | some r =>
      obtain ⟨ok, s2, t2⟩ := r
      have h2 := hrec _ _ _ _ _ hr
      cases ok with
      | false =>
        simp only [hr, Bool.not_false, if_true, Option.some.injEq, Prod.mk.injEq] at h
        obtain ⟨_, rfl, _⟩ := h
        exact h2
      | true =>
        simp only [hr, Bool.not_true] at h
        cases hk : deleteSubDirs W recurse dir rest
            (W.DeleteDirectory s2 (W.PathAppend dir d) false false).2 with
        | none => simp [hk] at h
        | some k =>
          obtain ⟨b3, s3, t3⟩ := k
          simp only [hk, Bool.false_eq_true, if_false, Option.some.injEq, Prod.mk.injEq] at h
          obtain ⟨_, rfl, _⟩ := h
          exact hR.trans _ _ _ h2 (hR.trans _ _ _ (hR.deleteDirectory _ _ _ _) (ih _ _ _ _ hk))

theorem DeleteDirectoryContents_preserves {W : World σ} {R : σ → σ → Prop}
    (hR : Preserves W R) (fuel : Nat) (s : σ) (p : String) (b : Bool) (s1 : σ)
    (t : List Event) (h : DeleteDirectoryContents W fuel s p = some (b, s1, t)) : R s s1 := by
  induction fuel generalizing s p b s1 t with
  | zero => simp [DeleteDirectoryContents] at h
  | succ n ih =>
    simp only [DeleteDirectoryContents] at h
    split at h
    · simp at h
    · rename_i b2 s2 t2 hk
      simp only [Option.some.injEq, Prod.mk.injEq] at h
      obtain ⟨_, rfl, _⟩ := h
      exact hR.trans _ _ _ (deleteFiles_preserves hR _ _ _)
        (deleteSubDirs_preserves hR _ (fun s p b s1 t => ih s p b s1 t) _ _ _ _ _ _ hk)

theorem forceDelete_preserves {W : World σ} {R : σ → σ → Prop} (hR : Preserves W R)
    (s : σ) (p : String) : R s (ForceDeleteDirectory W s p).2.1 := by
  unfold ForceDeleteDirectory
  split
  · exact hR.execProcess _ _ _
  · split
    · exact hR.execProcess _ _ _
    · exact hR.refl s

theorem folderRun_preserves {W : World σ} {R : σ → σ → Prop} (hR : Preserves W R)
    {fuel : Nat} {c : Cleanup} {s : σ} {p : String} {c1 : Cleanup} {s1 : σ} {tr : List Event}
    (h : FolderRun W fuel c s p c1 s1 tr) : R s s1 := by
  cases h with
  | skipped hE => exact hR.refl s
  | bulk hE hA => exact hR.deleteDirectory _ _ _ _
  | manual hE hA sw tw hW hB =>
    exact hR.trans _ _ _ (hR.deleteDirectory _ _ _ _)
      (hR.trans _ _ _ (DeleteDirectoryContents_preserves hR _ _ _ _ _ _ hW)
        (hR.deleteDirectory _ _ _ _))
  | forced hE hA sw tw hW hB hC =>
    exact hR.trans _ _ _ (hR.deleteDirectory _ _ _ _)
      (hR.trans _ _ _ (DeleteDirectoryContents_preserves hR _ _ _ _ _ _ hW)
        (hR.trans _ _ _ (hR.deleteDirectory _ _ _ _) (forceDelete_preserves hR _ _)))
  | failed hE hA sw tw hW hB hC =>
    exact hR.trans _ _ _ (hR.deleteDirectory _ _ _ _)
      (hR.trans _ _ _ (DeleteDirectoryContents_preserves hR _ _ _ _ _ _ hW)
        (hR.trans _ _ _ (hR.deleteDirectory _ _ _ _) (forceDelete_preserves hR _ _)))

theorem cleanupLoop_preserves {W : World σ} {R : σ → σ → Prop} (hR : Preserves W R)
    (fuel : Nat) (paths : List String) (c : Cleanup) (s : σ) (c1 : Cleanup) (s1 : σ)
    (tr : List Event) (h : cleanupLoop W fuel paths c s = some (c1, s1, tr)) : R s s1 := by
  induction paths generalizing c s c1 s1 tr with
  | nil =>
    simp only [cleanupLoop, Option.some.injEq, Prod.mk.injEq] at h
    obtain ⟨_, rfl, _⟩ := h
    exact hR.refl s
  | cons p rest ih =>
    simp only [cleanupLoop] at h
    cases hF : cleanupFolder W fuel c s p with
    | none => simp [hF] at h
    | some r =>
      obtain ⟨c2, s2, t2⟩ := r
      simp only [hF] at h
      cases hL : cleanupLoop W fuel rest c2 s2 with
      | none => simp [hL] at h
      | some r3 =>
        obtain ⟨c3, s3, t3⟩ := r3
        simp only [hL, Option.some.injEq, Prod.mk.injEq] at h
        obtain ⟨_, rfl, _⟩ := h
        exact hR.trans _ _ _ (folderRun_preserves hR (cleanupFolder_run _ _ _ _ _ _ _ hF)) (ih _ _ _ _ _ hL)

/-! ## Truthful engines -/

theorem truthful_preserves {W : World σ} (hT : Truthful W) :
    Preserves W (fun s s1 => ∀ q, W.DirectoryExists s q = false →
      W.DirectoryExists s1 q = false) where
  refl := fun _ _ h => h
  trans := fun _ _ _ h1 h2 q h => h2 q (h1 q h)
  delete := fun s f a b c q h => hT.stableDelete s f a b c q h
  deleteDirectory := fun s p a b q h => hT.stableDeleteDirectory s p a b q h
  execProcess := fun s u a q h => hT.stableExecProcess s u a q h

theorem folderRun_gone {W : World σ} (hT : Truthful W)
    {fuel : Nat} {c : Cleanup} {s : σ} {p : String} {c1 : Cleanup} {s1 : σ} {tr : List Event}
    (h : FolderRun W fuel c s p c1 s1 tr) (hok : c1.bCleanupSuccess = true) :
    W.DirectoryExists s1 p = false := by
  cases h with
  | skipped hE => exact hE
  | bulk hE hA => exact hT.deleteDirectory _ _ _ _ hA
  | manual hE hA sw tw hW hB => exact hT.deleteDirectory _ _ _ _ hB
  | forced hE hA sw tw hW hB hC => exact hT.forceDelete _ _ hC
  | failed hE hA sw tw hW hB hC => simp [record] at hok

theorem cleanupLoop_success_mono {W : World σ} (fuel : Nat) (paths : List String)
    (c : Cleanup) (s : σ) (c1 : Cleanup) (s1 : σ) (tr : List Event)
    (h : cleanupLoop W fuel paths c s = some (c1, s1, tr))
    (hok : c1.bCleanupSuccess = true) : c.bCleanupSuccess = true := by
  obtain ⟨ts, _, _, hc, _⟩ := cleanupLoop_terminal _ _ _ _ _ _ _ h
  rw [hc, recordAll, recordList_bCleanupSuccess] at hok
  simp only [Bool.and_eq_true] at hok
  exact hok.1

theorem cleanupLoop_gone {W : World σ} (hT : Truthful W) (fuel : Nat) (paths : List String)
    (c : Cleanup) (s : σ) (c1 : Cleanup) (s1 : σ) (tr : List Event)
    (h : cleanupLoop W fuel paths c s = some (c1, s1, tr))
    (hok : c1.bCleanupSuccess = true) :
    ∀ p ∈ paths, W.DirectoryExists s1 p = false := by
  induction paths generalizing c s c1 s1 tr with
  | nil => simp
  | cons p rest ih =>
    simp only [cleanupLoop] at h
    cases hF : cleanupFolder W fuel c s p with
    | none => simp [hF] at h
    | some r =>
      obtain ⟨c2, s2, t2⟩ := r
      simp only [hF] at h
      cases hL : cleanupLoop W fuel rest c2 s2 with
      | none => simp [hL] at h
      | some r3 =>
        obtain ⟨c3, s3, t3⟩ := r3
        simp only [hL, Option.some.injEq, Prod.mk.injEq] at h
        obtain ⟨rfl, rfl, _⟩ := h
        have hc2 := cleanupLoop_success_mono _ _ _ _ _ _ _ hL hok
        intro q hq
        rcases List.mem_cons.1 hq with rfl | hq
        · exact cleanupLoop_preserves (truthful_preserves hT) _ _ _ _ _ _ _ hL _
            (folderRun_gone hT (cleanupFolder_run _ _ _ _ _ _ _ hF) hc2)
        · exact ih _ _ _ _ _ hL hok q hq

theorem cleanupLoop_all_skipped {W : World σ} (fuel : Nat) (paths : List String)
    (c : Cleanup) (s : σ) (h : ∀ p ∈ paths, W.DirectoryExists s p = false) :
    ∃ tr, cleanupLoop W fuel paths c s = some (c, s, tr) ∧
      existenceChecks tr = paths.map (fun p => (p, false)) ∧ bulkDeletes tr = [] ∧
      terminalStates W fuel paths s = some (List.replicate paths.length .Skipped, s) := by
  induction paths with
  | nil => exact ⟨[], rfl, rfl, rfl, rfl⟩
  | cons p rest ih =>
    obtain ⟨tr, h1, h2, h3, h4⟩ := ih (fun q hq => h q (List.mem_cons_of_mem _ hq))
    have hp := h p (List.mem_cons_self _ _)
    refine ⟨Event.DirectoryExists p false ::
      Event.UE_LOG .Log ("Folder does not exist, skipping: " ++ p) :: tr, ?_, ?_, ?_, ?_⟩
    · simp [cleanupLoop, cleanupFolder, hp, h1]
    · simp only [existenceChecks, List.filterMap_cons, List.map_cons] at h2 ⊢
      rw [h2]
    · simp only [bulkDeletes, List.filterMap_cons] at h3 ⊢
      rw [h3]
    · simp [terminalStates, pathStateMachine, hp, h4, List.replicate_succ]

/-! ## Independent paths -/

theorem terminalStates_cons {W : World σ} (fuel : Nat) (p : String) (rest : List String)
    (s : σ) (ts : List Terminal) (sf : σ) :
    terminalStates W fuel (p :: rest) s = some (ts, sf) ↔
      ∃ t s1 ts1, pathStateMachine W fuel s p = some (t, s1) ∧
        terminalStates W fuel rest s1 = some (ts1, sf) ∧ ts = t :: ts1 := by
  cases hP : pathStateMachine W fuel s p with
  | none => simp [terminalStates, hP]
  | some r =>
    obtain ⟨t, s1⟩ := r
    cases hT : terminalStates W fuel rest s1 with
    | none =>
      simp only [terminalStates, hP, hT, Option.some.injEq, Prod.mk.injEq]
      constructor
      · intro h
        cases h
      · rintro ⟨t2, s2, ts2, ⟨rfl, rfl⟩, h2, _⟩
        rw [hT] at h2
        cases h2
    | some r3 =>
      obtain ⟨ts3, s3⟩ := r3
      simp only [terminalStates, hP, hT, Option.some.injEq, Prod.mk.injEq]
      constructor
      · rintro ⟨rfl, rfl⟩
        exact ⟨t, s1, ts3, ⟨rfl, rfl⟩, hT, rfl⟩
      · rintro ⟨t2, s2, ts2, ⟨rfl, rfl⟩, h2, rfl⟩
        rw [hT] at h2
        simp only [Option.some.injEq, Prod.mk.injEq] at h2
        exact ⟨by rw [h2.1], h2.2⟩

theorem terminalStates_perm {W : World σ} (fuel : Nat) {l1 l2 : List String}
    (hperm : l1.Perm l2) :
    Independent W fuel l1 → ∀ s ts sf, terminalStates W fuel l1 s = some (ts, sf) →
      ∃ ts2, terminalStates W fuel l2 s = some (ts2, sf) ∧ (l1.zip ts).Perm (l2.zip ts2) := by
  induction hperm with
  | nil =>
    intro _ s ts sf h
    exact ⟨ts, h, List.Perm.refl _⟩
  | cons x _ ih =>
    intro hI s ts sf h
    obtain ⟨t, s1, ts1, hP, hT, rfl⟩ := (terminalStates_cons _ _ _ _ _ _).1 h
    obtain ⟨ts2, h2, hz⟩ := ih
      (fun p hp q hq => hI p (List.mem_cons_of_mem _ hp) q (List.mem_cons_of_mem _ hq))
      s1 ts1 sf hT
    exact ⟨t :: ts2, (terminalStates_cons _ _ _ _ _ _).2 ⟨t, s1, ts2, hP, h2, rfl⟩,
      by simpa using hz⟩
  | swap x y l =>
    intro hI s ts sf h
    obtain ⟨ty, s1, ts1, hPy, hT, rfl⟩ := (terminalStates_cons _ _ _ _ _ _).1 h
    obtain ⟨tx, s2, ts2, hPx, hT2, rfl⟩ := (terminalStates_cons _ _ _ _ _ _).1 hT
    by_cases hxy : y = x
    · subst hxy
      exact ⟨ty :: tx :: ts2, h, List.Perm.refl _⟩
    · obtain ⟨s3, hx3, hy3⟩ := hI y (List.mem_cons_self _ _) x
        (List.mem_cons_of_mem _ (List.mem_cons_self _ _)) hxy s ty s1 tx s2 hPy hPx
      refine ⟨tx :: ty :: ts2, ?_, ?_⟩
      · exact (terminalStates_cons _ _ _ _ _ _).2 ⟨tx, s3, ty :: ts2, hx3,
          (terminalStates_cons _ _ _ _ _ _).2 ⟨ty, s2, ts2, hy3, hT2, rfl⟩, rfl⟩
      · simpa using List.Perm.swap (x, tx) (y, ty) (l.zip ts2)
  | trans h12 _ ih1 ih2 =>
    intro hI s ts sf h
    obtain ⟨ts2, h2, hz2⟩ := ih1 hI s ts sf h
    obtain ⟨ts3, h3, hz3⟩ := ih2
      (fun p hp q hq => hI p (h12.mem_iff.2 hp) q (h12.mem_iff.2 hq)) s ts2 sf h2
    exact ⟨ts3, h3, hz2.trans hz3⟩

theorem terminalStates_length {W : World σ} (fuel : Nat) (paths : List String) (s : σ)
    (ts : List Terminal) (sf : σ) (h : terminalStates W fuel paths s = some (ts, sf)) :
    ts.length = paths.length := by
  induction paths generalizing s ts with
  | nil =>
    simp only [terminalStates, Option.some.injEq, Prod.mk.injEq] at h
    obtain ⟨rfl, _⟩ := h
    rfl
  | cons p rest ih =>
    obtain ⟨t, s1, ts1, _, hT, rfl⟩ := (terminalStates_cons _ _ _ _ _ _).1 h
    simp [ih _ _ hT]

/-! ## The walk visits every entry -/

theorem fileDeletes_deleteFiles {W : World σ} (dir : String) (L : List String) (s : σ) :
    fileDeletes (deleteFiles W dir L s).2 = L.map (W.PathAppend dir) := by
  induction L generalizing s with
  | nil => rfl
  | cons f rest ih =>
    have := ih (W.Delete s (W.PathAppend dir f) false true true).2
    simp only [fileDeletes] at this
    simp only [deleteFiles, fileDeletes, List.filterMap_cons, List.filterMap_append, List.map_cons]
    rw [this]
    split <;> simp

theorem deleteFiles_attempts {W : World σ} (dir : String) (L : List String) (s : σ) :
    ∀ f ∈ L, ∃ r, Event.Delete (W.PathAppend dir f) false true true r ∈ (deleteFiles W dir L s).2 := by
  induction L generalizing s with
  | nil => simp
  | cons g rest ih =>
    intro f hf
    rcases List.mem_cons.1 hf with rfl | hf
    · exact ⟨(W.Delete s (W.PathAppend dir f) false true true).1, by simp [deleteFiles]⟩
    · obtain ⟨r, hr⟩ := ih (W.Delete s (W.PathAppend dir g) false true true).2 f hf
      exact ⟨r, by simp only [deleteFiles, List.mem_cons, List.mem_append]; exact Or.inr (Or.inr hr)⟩

theorem deleteSubDirs_visits {W : World σ}
    (recurse : σ → String → Option (Bool × σ × List Event)) (dir : String)
    (L : List String) (s s1 : σ) (t : List Event)
    (h : deleteSubDirs W recurse dir L s = some (true, s1, t)) :
    ∀ d ∈ L, ∃ pre mid post sa sb r,
      t = pre ++ mid ++ Event.DeleteDirectory (W.PathAppend dir d) false false r :: post ∧
      recurse sa (W.PathAppend dir d) = some (true, sb, mid) := by
  induction L generalizing s s1 t with
  | nil => simp
  | cons e rest ih =>
    simp only [deleteSubDirs] at h
    cases hr : recurse s (W.PathAppend dir e) with
    | none => simp [hr] at h
    | some r =>
      obtain ⟨ok, s2, t2⟩ := r
      cases ok with
      | false => simp [hr] at h
      | true =>
        simp only [hr, Bool.not_true] at h
        cases hk : deleteSubDirs W recurse dir rest
            (W.DeleteDirectory s2 (W.PathAppend dir e) false false).2 with
        | none => simp [hk] at h
        | some k =>
          obtain ⟨b3, s3, t3⟩ := k
          simp only [hk, Bool.false_eq_true, if_false, Option.some.injEq, Prod.mk.injEq] at h
          obtain ⟨rfl, rfl, rfl⟩ := h
          intro d hd
          rcases List.mem_cons.1 hd with rfl | hd
          · exact ⟨[], t2, t3, s, s2,
              (W.DeleteDirectory s2 (W.PathAppend dir d) false false).1, by simp, hr⟩
          · obtain ⟨pre, mid, post, sa, sb, r, ht, hrec⟩ := ih _ _ _ hk d hd
            exact ⟨t2 ++ Event.DeleteDirectory (W.PathAppend dir e) false false
                (W.DeleteDirectory s2 (W.PathAppend dir e) false false).1 :: pre,
              mid, post, sa, sb, r, by simp [ht], hrec⟩

/-! ## The failure text -/

theorem failureText_length_ge (init : String) (failed : List String) :
    init.length ≤ (failureText init failed).length := by
  induction failed generalizing init with
  | nil => exact le_rfl
  | cons p rest ih =>
    have := ih (init ++ failureEntry p)
    simp only [String.length_append] at this
    simp only [failureText, List.foldl_cons] at this ⊢
    omega

theorem failureText_eq_empty (failed : List String) (h : failureText "" failed = "") :
    failed = [] := by
  cases failed with
  | nil => rfl
  | cons p rest =>
    have h1 := failureText_length_ge ("" ++ failureEntry p) rest
    have h2 : failureText "" (p :: rest) = failureText ("" ++ failureEntry p) rest := rfl
    rw [← h2, h] at h1
    simp only [failureEntry, String.length_append] at h1
    have : "Failed to delete: ".length = 18 := by decide
    have : "".length = 0 := by decide
    omega

/-! ## Properties of the concrete engines -/

theorem flatFS_finite (locked : List String) :
    FiniteTree (flatFS locked) (fun _ _ => 0) where
  listing := fun s p d h => by simp [flatFS] at h
  delete := fun _ _ _ _ _ _ => le_rfl
  deleteDirectory := fun _ _ _ _ _ => le_rfl
  execProcess := fun _ _ _ _ => le_rfl

theorem flatFS_truthful (locked : List String) : Truthful (flatFS locked) where
  deleteDirectory := fun s p a b h => by
    simp only [flatFS] at h ⊢
    by_cases hp : p ∈ s
    · by_cases hl : p ∈ locked
      · simp [hp, hl] at h
      · simp [hp, hl]
    · simp [hp]
  forceDelete := fun s p h => by simp [ForceDeleteDirectory, flatFS] at h
  stableDelete := fun s f a b c q h => h
  stableDeleteDirectory := fun s p a b q h => by
    simp only [flatFS, decide_eq_false_iff_not] at h ⊢
    by_cases hp : p ∈ s
    · by_cases hl : p ∈ locked
      · simpa [hp, hl] using h
      · simp [hp, hl, h]
    · simpa [hp] using h
  stableExecProcess := fun s u a q h => h

theorem flatFS_stateMachine (locked : List String) (s : List String) (p : String) :
    pathStateMachine (flatFS locked) 1 s p =
      some (if p ∈ s then (if p ∈ locked then (Terminal.Failed, s)
          else (Terminal.Deleted, s.filter (fun q => q ≠ p)))
        else (Terminal.Skipped, s)) := by
  by_cases hp : p ∈ s
  · by_cases hl : p ∈ locked
    · simp [pathStateMachine, manualDelete, DeleteDirectoryContents, deleteFiles, deleteSubDirs,
        ForceDeleteDirectory, flatFS, hp, hl]
    · simp [pathStateMachine, flatFS, hp, hl]
  · simp [pathStateMachine, flatFS, hp]

theorem flatFS_independent (locked : List String) (paths : List String) :
    Independent (flatFS locked) 1 paths := by
  intro p _ q _ hpq s tp s1 tq s2 h1 h2
  rw [flatFS_stateMachine] at h1 h2
  simp only [flatFS_stateMachine]
  simp only [Option.some.injEq] at h1 h2 ⊢
  have hqp : q ≠ p := fun h => hpq h.symm
  by_cases hp : p ∈ s <;> by_cases hq : q ∈ s <;> by_cases hlp : p ∈ locked <;>
    by_cases hlq : q ∈ locked <;>
    simp [hp, hq, hlp, hlq, hpq, hqp, List.mem_filter] at h1 h2 ⊢ <;>
    obtain ⟨rfl, rfl⟩ := h1 <;>
    simp [hp, hq, hlp, hlq, hpq, hqp, List.mem_filter] at h2 ⊢ <;>
    obtain ⟨rfl, rfl⟩ := h2 <;>
    simp [hp, hq, hlp, hlq, hpq, hqp, List.mem_filter, List.filter_filter, Bool.and_comm]

theorem append_star_cancel (p : String) (h : p ++ "/" ++ "*" = "/proj/Saved/*") :
    p = "/proj/Saved" := by
  have h1 : (p ++ "/" ++ "*").data = "/proj/Saved/*".data := congrArg String.data h
  rw [String.data_append, String.data_append] at h1
  have h2 : "/proj/Saved/*".data = "/proj/Saved".data ++ "/".data ++ "*".data := by decide
  rw [h2] at h1
  exact String.ext (List.append_cancel_right (List.append_cancel_right h1))

theorem savedTree_finite (lockVanishes : Bool) (shell : Bool × Option Int)
    (shellRemoves : Bool) :
    FiniteTree (savedTree lockVanishes shell shellRemoves) savedRank where
  listing := fun s p d h => by
    simp only [savedTree] at h ⊢
    by_cases h1 : p ++ "/" ++ "*" = "/proj/Saved/*"
    · have hp := append_star_cancel p h1
      subst hp
      simp only [h1, if_true, Bool.false_eq_true, if_false, List.nil_append, List.mem_filter,
        List.mem_singleton] at h
      rw [h.1]
      simp only [savedRank]
      decide
    · by_cases h2 : p ++ "/" ++ "*" = "/proj/Saved/Logs/*"
      · simp [h1, h2] at h
      · simp [h1, h2] at h
  delete := fun _ _ _ _ _ _ => le_rfl
  deleteDirectory := fun _ _ _ _ _ => le_rfl
  execProcess := fun _ _ _ _ => le_rfl

/-- On the locked tree, in the state the walk leaves, the non-recursive
removal of `/proj/Saved` fails: the locked file is still there. -/
theorem savedTree_walk_rmdir_fails :
    ∀ sw tw, DeleteDirectoryContents (savedTree false (true, some 1) false) 2
        ((savedTree false (true, some 1) false).DeleteDirectory savedEntries "/proj/Saved"
          false true).2 "/proj/Saved" = some (true, sw, tw) →
      ((savedTree false (true, some 1) false).DeleteDirectory sw "/proj/Saved"
        true false).1 = false := by
  intro sw tw hW
  have e : (DeleteDirectoryContents (savedTree false (true, some 1) false) 2
      ((savedTree false (true, some 1) false).DeleteDirectory savedEntries "/proj/Saved"
        false true).2 "/proj/Saved").map (fun r =>
        ((savedTree false (true, some 1) false).DeleteDirectory r.2.1 "/proj/Saved"
          true false).1) = some false := by decide
  rw [hW] at e
  exact Option.some.inj e

/-- On the locked tree, in the state after the failed non-recursive removal,
the shell command exits with code 1, so the force-delete fails. -/
theorem savedTree_walk_shell_fails :
    ∀ sw tw, DeleteDirectoryContents (savedTree false (true, some 1) false) 2
        ((savedTree false (true, some 1) false).DeleteDirectory savedEntries "/proj/Saved"
          false true).2 "/proj/Saved" = some (true, sw, tw) →
      (ForceDeleteDirectory (savedTree false (true, some 1) false)
        ((savedTree false (true, some 1) false).DeleteDirectory sw "/proj/Saved"
          true false).2 "/proj/Saved").1 = false := by
  intro sw tw hW
  have e : (DeleteDirectoryContents (savedTree false (true, some 1) false) 2
      ((savedTree false (true, some 1) false).DeleteDirectory savedEntries "/proj/Saved"
        false true).2 "/proj/Saved").map (fun r =>
        (ForceDeleteDirectory (savedTree false (true, some 1) false)
          ((savedTree false (true, some 1) false).DeleteDirectory r.2.1 "/proj/Saved"
            true false).2 "/proj/Saved").1) = some false := by decide
  rw [hW] at e
  exact Option.some.inj e

theorem filter_zip_flags (paths : List String) (ts : List Terminal) :
    ((paths.zip ts).filter (fun x => decide (x.2 ≠ .Skipped))).map Prod.fst =
      ((paths.zip (ts.map (fun t => decide (t ≠ .Skipped)))).filter (fun x => x.2)).map
        Prod.fst := by
  induction paths generalizing ts with
  | nil => simp
  | cons p rest ih =>
    cases ts with
    | nil => simp
    | cons t ts =>
      have := ih ts
      cases t <;> simpa [List.filter_cons] using this

/-! ## The claims -/

/-- C1. On a finite directory tree `PerformCleanupWork` returns, and every
path of the input is in exactly one terminal bucket: the run assigns one
terminal state per input position (`ts` has the length of the input); a path is
skipped exactly when its existence check reported false; `DeletedFolders`
counts the deleted paths; `ErrorMessage` holds one failure entry per failed
path; and deleted + failed + skipped is the length of the input. -/
theorem performCleanupWork_one_bucket_per_path {W : World σ} {rank : σ → String → Nat}
    (hft : FiniteTree W rank) (fuel : Nat) (s : σ) (paths : List String)
    (hfuel : ∀ p ∈ paths, rank s p < fuel) (hlen : paths.length < 2147483648) :
    ∃ c s1 tr ts, PerformCleanupWork W fuel s paths = some (c, s1, tr) ∧
      terminalStates W fuel paths s = some (ts, s1) ∧ ts.length = paths.length ∧
      existenceChecks tr = paths.zip (ts.map (fun t => decide (t ≠ .Skipped))) ∧
      c.DeletedFolders = (pathsIn .Deleted paths ts).length ∧
      c.ErrorMessage = failureText "" (pathsIn .Failed paths ts) ∧
      c.DeletedFolders + (pathsIn .Failed paths ts).length +
        (pathsIn .Skipped paths ts).length = paths.length := by
  obtain ⟨c, s1, tr, h⟩ := cleanupLoop_total hft fuel paths
    { bCleanupSuccess := true, ErrorMessage := "", DeletedFolders := 0 } s hfuel
  obtain ⟨ts, hts, hl, hc, hex, _⟩ := cleanupLoop_terminal _ _ _ _ _ _ _ h
  have hzl : (paths.zip ts).length = paths.length := by simp [List.length_zip, hl]
  have hD : c.DeletedFolders = (pathsIn .Deleted paths ts).length := by
    rw [hc, recordAll, recordList_DeletedFolders _ _ (le_refl _) (by simp only [hzl]; omega)]
    simp [pathsIn]
  have hsum := pathsOf_length_sum (paths.zip ts)
  refine ⟨c, s1, tr, ts, h, hts, hl, hex, hD, ?_, ?_⟩
  · rw [hc, recordAll, recordList_ErrorMessage]
    rfl
  · rw [hD]
    simp only [pathsIn]
    omega

/-- C4. On a finite directory tree the existence check is made on every path
of the input, in input order and whatever happened to earlier paths, the bulk
removal is called on exactly the paths whose check reported true, and the
failure entries of `ErrorMessage` are the failed paths in input order, a
sub-sequence of the input; the run reports success exactly when no path
failed. -/
theorem failures_in_input_order {W : World σ} {rank : σ → String → Nat}
    (hft : FiniteTree W rank) (fuel : Nat) (s : σ) (paths : List String)
    (hfuel : ∀ p ∈ paths, rank s p < fuel) :
    ∃ c s1 tr ts, PerformCleanupWork W fuel s paths = some (c, s1, tr) ∧
      terminalStates W fuel paths s = some (ts, s1) ∧
      (existenceChecks tr).map Prod.fst = paths ∧
      bulkDeletes tr = ((existenceChecks tr).filter (fun x => x.2)).map Prod.fst ∧
      c.ErrorMessage = failureText "" (pathsIn .Failed paths ts) ∧
      List.Sublist (pathsIn .Failed paths ts) paths ∧
      (c.bCleanupSuccess = true ↔ pathsIn .Failed paths ts = []) := by
  obtain ⟨c, s1, tr, h⟩ := cleanupLoop_total hft fuel paths
    { bCleanupSuccess := true, ErrorMessage := "", DeletedFolders := 0 } s hfuel
  obtain ⟨ts, hts, hl, hc, hex, hbulk⟩ := cleanupLoop_terminal _ _ _ _ _ _ _ h
  refine ⟨c, s1, tr, ts, h, hts, ?_, ?_, ?_, pathsOf_sublist _ _ _, ?_⟩
  · rw [hex, List.map_fst_zip]
    simp [hl]
  · rw [hbulk, hex]
    exact filter_zip_flags paths ts
  · rw [hc, recordAll, recordList_ErrorMessage]
    rfl
  · rw [hc, recordAll, recordList_bCleanupSuccess]
    simp [pathsIn, List.isEmpty_iff]

/-- C2, amended. For every pass of the loop body of `PerformCleanupWork` on a
finite directory tree, the path is counted in `DeletedFolders` if and only if
it existed when it was reached and one of the strategies reported success for
it (the code does not look at the filesystem again after the attempts);
otherwise `DeletedFolders` is unchanged; a path that did not exist leaves the
outcome and the filesystem untouched: neither counted nor failed; and on an
engine that reports removals truthfully a counted path no longer exists
afterwards. -/
theorem counted_iff_reported_success {W : World σ} {rank : σ → String → Nat}
    (hft : FiniteTree W rank) (fuel : Nat) (c : Cleanup) (s : σ) (p : String)
    (h : rank s p < fuel) :
    ∃ c1 s1 tr, cleanupFolder W fuel c s p = some (c1, s1, tr) ∧
      (c1.DeletedFolders = wrapInt32 (c.DeletedFolders + 1) ↔
        W.DirectoryExists s p = true ∧ ReportedSuccess p tr) ∧
      (c1.DeletedFolders ≠ wrapInt32 (c.DeletedFolders + 1) →
        c1.DeletedFolders = c.DeletedFolders) ∧
      (W.DirectoryExists s p = false → c1 = c ∧ s1 = s) ∧
      (Truthful W → c1.DeletedFolders = wrapInt32 (c.DeletedFolders + 1) →
        W.DirectoryExists s1 p = false) := by
  obtain ⟨c1, s1, tr, hF, _⟩ := cleanupFolder_total hft fuel c s p h
  obtain ⟨t, hpsm, hc, _, _, hsk, hdel⟩ := folderRun_terminal (cleanupFolder_run _ _ _ _ _ _ _ hF)
  have hne := wrapInt32_succ_ne c.DeletedFolders
  refine ⟨c1, s1, tr, hF, ?_, ?_, ?_, ?_⟩
  · constructor
    · intro hcount
      have ht : t = .Deleted := by
        cases t with
        | Deleted => rfl
        | Skipped => rw [hc] at hcount; exact absurd hcount.symm hne
        | Failed => rw [hc] at hcount; exact absurd hcount.symm hne
      refine ⟨?_, hdel.1 ht⟩
      cases hE : W.DirectoryExists s p with
      | true => rfl
      | false => rw [hsk.2 hE] at ht; cases ht
    · rintro ⟨_, hrep⟩
      rw [hc, hdel.2 hrep]
      rfl
  · intro hcount
    cases t with
    | Deleted => rw [hc] at hcount; exact absurd rfl hcount
    | Skipped => rw [hc]; rfl
    | Failed => rw [hc]; rfl
  · intro hE
    have ht := hsk.2 hE
    subst ht
    have : pathStateMachine W fuel s p = some (.Skipped, s) := by
      simp [pathStateMachine, hE]
    rw [this] at hpsm
    simp only [Option.some.injEq, Prod.mk.injEq, true_and] at hpsm
    exact ⟨hc, hpsm.symm⟩
  · intro hT hcount
    cases cleanupFolder_run _ _ _ _ _ _ _ hF with
    | skipped hE => exact hE
    | bulk _ hA => exact hT.deleteDirectory _ _ _ _ hA
    | manual _ _ sw tw hW hB => exact hT.deleteDirectory _ _ _ _ hB
    | forced _ _ sw tw hW _ hC => exact hT.forceDelete _ _ hC
    | failed _ _ sw tw hW _ _ => exact absurd hcount.symm hne

/-- C3, amended. For every existing path on a finite directory tree the loop
body calls the strategies in the order A, B, C and stops at the first that
reports success: when the bulk removal reports success nothing else is called;
when it reports failure the walk runs (it returns true) followed by the final
non-recursive removal, whose result alone is the result of Strategy B; the
force-delete runs exactly when that final removal reports failure as well, and
its result then decides between deleted and failed. A failed deletion of a
single file does not by itself lead to Strategy C. When C runs on a platform
with a shell command, it makes exactly one `ExecProcess` call. -/
theorem cascade_order {W : World σ} {rank : σ → String → Nat}
    (hft : FiniteTree W rank) (fuel : Nat) (c : Cleanup) (s : σ) (p : String)
    (h : rank s p < fuel) (hE : W.DirectoryExists s p = true) :
    ∃ c1 s1 tr, cleanupFolder W fuel c s p = some (c1, s1, tr) ∧
      ((W.DeleteDirectory s p false true).1 = true →
        tr = [Event.DirectoryExists p true,
          Event.UE_LOG .Log ("Attempting to delete folder: " ++ p),
          Event.DeleteDirectory p false true true,
          Event.UE_LOG .Log ("Successfully deleted: " ++ p)]) ∧
      ((W.DeleteDirectory s p false true).1 = false →
        ∃ sw tw, DeleteDirectoryContents W fuel (W.DeleteDirectory s p false true).2 p
            = some (true, sw, tw) ∧
          ((W.DeleteDirectory sw p true false).1 = true →
            tr = [Event.DirectoryExists p true,
              Event.UE_LOG .Log ("Attempting to delete folder: " ++ p),
              Event.DeleteDirectory p false true false] ++
              (tw ++ [Event.DeleteDirectory p true false true]) ++ [] ++
              [Event.UE_LOG .Log ("Successfully deleted: " ++ p)]) ∧
          ((W.DeleteDirectory sw p true false).1 = false →
            ∃ lg, tr = [Event.DirectoryExists p true,
              Event.UE_LOG .Log ("Attempting to delete folder: " ++ p),
              Event.DeleteDirectory p false true false] ++
              (tw ++ [Event.DeleteDirectory p true false false]) ++
              (ForceDeleteDirectory W (W.DeleteDirectory sw p true false).2 p).2.2 ++ [lg] ∧
            c1 = record c p
              (if (ForceDeleteDirectory W (W.DeleteDirectory sw p true false).2 p).1
                then .Deleted else .Failed) ∧
            ((W.PLATFORM_WINDOWS || W.PLATFORM_MAC || W.PLATFORM_LINUX) = true →
              ∃ u a r rc, (ForceDeleteDirectory W (W.DeleteDirectory sw p true false).2 p).2.2
                = [Event.ExecProcess u a r rc]))) := by
  obtain ⟨c1, s1, tr, hF, _⟩ := cleanupFolder_total hft fuel c s p h
  refine ⟨c1, s1, tr, hF, ?_, ?_⟩
  · intro hA
    cases cleanupFolder_run _ _ _ _ _ _ _ hF with
    | skipped hE2 => rw [hE] at hE2; cases hE2
    | bulk _ _ => rfl
    | manual _ hA2 _ _ _ _ => rw [hA] at hA2; cases hA2
    | forced _ hA2 _ _ _ _ _ => rw [hA] at hA2; cases hA2
    | failed _ hA2 _ _ _ _ _ => rw [hA] at hA2; cases hA2
  · intro hA
    have hplat : ∀ s2, (W.PLATFORM_WINDOWS || W.PLATFORM_MAC || W.PLATFORM_LINUX) = true →
        ∃ u a r rc, (ForceDeleteDirectory W s2 p).2.2 = [Event.ExecProcess u a r rc] := by
      intro s2 hp
      unfold ForceDeleteDirectory
      split
      · exact ⟨_, _, _, _, rfl⟩
      · split
        · exact ⟨_, _, _, _, rfl⟩
        · rename_i h1 h2
          simp only [Bool.or_eq_true] at hp h2
          rcases hp with (hp | hp) | hp
          · exact absurd hp h1
          · exact absurd (Or.inl hp) h2
          · exact absurd (Or.inr hp) h2
    cases cleanupFolder_run _ _ _ _ _ _ _ hF with
    | skipped hE2 => rw [hE] at hE2; cases hE2
    | bulk _ hA2 => rw [hA] at hA2; cases hA2
    | manual _ _ sw tw hW hB =>
      refine ⟨sw, tw, hW, fun _ => rfl, fun hB2 => ?_⟩
      rw [hB] at hB2; cases hB2
    | forced _ _ sw tw hW hB hC =>
      refine ⟨sw, tw, hW, fun hB2 => ?_, fun _ => ⟨_, rfl, ?_, hplat _⟩⟩
      · rw [hB] at hB2; cases hB2
      · rw [hC]; rfl
    | failed _ _ sw tw hW hB hC =>
      refine ⟨sw, tw, hW, fun hB2 => ?_, fun _ => ⟨_, rfl, ?_, hplat _⟩⟩
      · rw [hB] at hB2; cases hB2
      · rw [hC]; rfl

/-- C7, amended. For an input of one existing directory on a finite tree for
which all three strategies fail where the code calls them (the bulk removal in
the initial state, the final non-recursive removal in the state the walk
leaves, the force-delete in the state after that removal), the run returns
with `bCleanupSuccess` false, `DeletedFolders` 0 and an `ErrorMessage` of
exactly one entry: the text `Failed to delete: ` followed by the path and a
newline. The filesystem is left in the state after the force-delete. -/
theorem single_failure_outcome {W : World σ} {rank : σ → String → Nat}
    (hft : FiniteTree W rank) (fuel : Nat) (s : σ) (p : String)
    (h : rank s p < fuel) (hE : W.DirectoryExists s p = true)
    (hA : (W.DeleteDirectory s p false true).1 = false)
    (hB : ∀ sw tw, DeleteDirectoryContents W fuel (W.DeleteDirectory s p false true).2 p
      = some (true, sw, tw) → (W.DeleteDirectory sw p true false).1 = false)
    (hC : ∀ sw tw, DeleteDirectoryContents W fuel (W.DeleteDirectory s p false true).2 p
      = some (true, sw, tw) →
      (ForceDeleteDirectory W (W.DeleteDirectory sw p true false).2 p).1 = false) :
    ∃ sw tw tr, DeleteDirectoryContents W fuel (W.DeleteDirectory s p false true).2 p
        = some (true, sw, tw) ∧
      PerformCleanupWork W fuel s [p] =
        some (Cleanup.mk false ("Failed to delete: " ++ p ++ "\n") 0,
          (ForceDeleteDirectory W (W.DeleteDirectory sw p true false).2 p).2.1, tr) := by
  obtain ⟨c1, s1, tr, hF, _⟩ := cleanupFolder_total hft fuel
    { bCleanupSuccess := true, ErrorMessage := "", DeletedFolders := 0 } s p h
  have hL : PerformCleanupWork W fuel s [p] = some (c1, s1, tr ++ []) := by
    simp [PerformCleanupWork, cleanupLoop, hF]
  cases cleanupFolder_run _ _ _ _ _ _ _ hF with
  | skipped hE2 => rw [hE] at hE2; cases hE2
  | bulk _ hA2 => rw [hA] at hA2; cases hA2
  | manual _ _ sw tw hW hB2 => rw [hB sw tw hW] at hB2; cases hB2
  | forced _ _ sw tw hW _ hC2 => rw [hC sw tw hW] at hC2; cases hC2
  | failed _ _ sw tw hW _ _ => exact ⟨sw, tw, _, hW, hL⟩

/-- C5, amended. On an engine that reports removals truthfully and never
creates directories, if a first run of `PerformCleanupWork` returns without
any failure entry, then a second run on the same input from the resulting
state skips every path: it returns `DeletedFolders = 0`, an empty
`ErrorMessage`, success, and leaves the filesystem unchanged, having made
nothing but existence checks that reported false. -/
theorem second_run_skips_everything {W : World σ} (hT : Truthful W) (fuel : Nat) (s : σ)
    (paths : List String) (c1 : Cleanup) (s1 : σ) (tr1 : List Event)
    (h1 : PerformCleanupWork W fuel s paths = some (c1, s1, tr1))
    (hok : c1.ErrorMessage = "") :
    ∃ tr2, PerformCleanupWork W fuel s1 paths =
        some ({ bCleanupSuccess := true, ErrorMessage := "", DeletedFolders := 0 }, s1, tr2) ∧
      terminalStates W fuel paths s1 = some (List.replicate paths.length .Skipped, s1) ∧
      existenceChecks tr2 = paths.map (fun p => (p, false)) ∧ bulkDeletes tr2 = [] := by
  have hb : c1.bCleanupSuccess = true := by
    obtain ⟨ts, _, _, hc, _⟩ := cleanupLoop_terminal _ _ _ _ _ _ _ h1
    have hm : failureText "" (pathsOf .Failed (paths.zip ts)) = "" := by
      have e := congrArg Cleanup.ErrorMessage hc
      rw [hok, recordAll, recordList_ErrorMessage] at e
      exact e.symm
    rw [hc, recordAll, recordList_bCleanupSuccess, failureText_eq_empty _ hm]
    rfl
  have hgone := cleanupLoop_gone hT _ _ _ _ _ _ _ h1 hb
  obtain ⟨tr2, h2, hex, hbulk, hts⟩ := cleanupLoop_all_skipped fuel paths
    { bCleanupSuccess := true, ErrorMessage := "", DeletedFolders := 0 } s1 hgone
  exact ⟨tr2, h2, hts, hex, hbulk⟩

/-- C6, amended. On a finite directory tree, for an input whose paths are
independent of one another and any permutation of it, run from the same
state, `PerformCleanupWork` classifies the paths the same way: the paths with
their terminal states are the same up to order, `DeletedFolders` and the
success flag are equal, the failed paths are the same up to order, and the
final filesystem state is the same. -/
theorem permutation_same_classification {W : World σ} {rank : σ → String → Nat}
    (hft : FiniteTree W rank) (fuel : Nat) (s : σ) (paths paths2 : List String)
    (hfuel : ∀ p ∈ paths, rank s p < fuel) (hlen : paths.length < 2147483648)
    (hI : Independent W fuel paths) (hperm : paths.Perm paths2) :
    ∃ c1 c2 sf tr1 tr2 ts1 ts2,
      PerformCleanupWork W fuel s paths = some (c1, sf, tr1) ∧
      PerformCleanupWork W fuel s paths2 = some (c2, sf, tr2) ∧
      terminalStates W fuel paths s = some (ts1, sf) ∧
      terminalStates W fuel paths2 s = some (ts2, sf) ∧
      (paths.zip ts1).Perm (paths2.zip ts2) ∧
      c1.DeletedFolders = c2.DeletedFolders ∧
      c1.bCleanupSuccess = c2.bCleanupSuccess ∧
      (pathsIn .Failed paths ts1).Perm (pathsIn .Failed paths2 ts2) := by
  obtain ⟨c1, sf, tr1, h1⟩ := cleanupLoop_total hft fuel paths
    { bCleanupSuccess := true, ErrorMessage := "", DeletedFolders := 0 } s hfuel
  obtain ⟨ts1, hts1, hl1, hc1, _⟩ := cleanupLoop_terminal _ _ _ _ _ _ _ h1
  obtain ⟨ts2, hts2, hz⟩ := terminalStates_perm fuel hperm hI s ts1 sf hts1
  obtain ⟨tr2, h2⟩ := cleanupLoop_of_terminalStates fuel paths2
    { bCleanupSuccess := true, ErrorMessage := "", DeletedFolders := 0 } s ts2 sf hts2
  have hl2 := terminalStates_length _ _ _ _ _ hts2
  have hof : ∀ t, (pathsOf t (paths.zip ts1)).Perm (pathsOf t (paths2.zip ts2)) :=
    fun t => (hz.filter _).map _
  have hzl1 : (paths.zip ts1).length = paths.length := by simp [List.length_zip, hl1]
  have hzl2 : (paths2.zip ts2).length = paths.length := by
    simp [List.length_zip, hl2, hperm.length_eq]
  refine ⟨c1, _, sf, tr1, tr2, ts1, ts2, h1, h2, hts1, hts2, hz, ?_, ?_, hof .Failed⟩
  · rw [hc1, recordAll, recordAll,
      recordList_DeletedFolders _ _ (le_refl _) (by simp only [hzl1]; omega),
      recordList_DeletedFolders _ _ (le_refl _) (by simp only [hzl2]; omega),
      (hof .Deleted).length_eq]
  · rw [hc1, recordAll, recordAll, recordList_bCleanupSuccess, recordList_bCleanupSuccess]
    have := (hof .Failed).length_eq
    cases h3 : pathsOf .Failed (paths.zip ts1) <;>
      cases h4 : pathsOf .Failed (paths2.zip ts2) <;> simp_all

/-- C8. The code does not surface a failed run in which nothing was deleted:
whatever the error text, `OnCleanupCompleted(false, 0, ErrorMessage)` shows
only the notification that no cache folders were found, and such a call is
what `PerformCleanupWork` produces for one existing directory on which all
three strategies fail. -/
theorem failure_with_nothing_deleted_not_surfaced :
    (∀ (E : Editor) (ErrorMessage : String), OnCleanupCompleted E false 0 ErrorMessage =
      [HostAction.ShowNotification "No cache folders found to clean up." .CS_None]) ∧
    (PerformCleanupWork (savedTree false (true, some 1) false) 2 savedEntries
      ["/proj/Saved"]).map (fun r => r.1) =
        some (Cleanup.mk false "Failed to delete: /proj/Saved\n" 0) ∧
    OnCleanupCompleted (Editor.mk true false (fun _ => "")) false 0
      "Failed to delete: /proj/Saved\n" =
        [HostAction.ShowNotification "No cache folders found to clean up." .CS_None] :=
  ⟨fun _ _ => rfl, by decide, rfl⟩

/-- With at least one directory deleted, a failed run takes the error branch:
the notification holds the error text, the user is asked, and the editor is
restarted only on the answer Yes. -/
theorem OnCleanupCompleted_errors (E : Editor) (DeletedFolders : Int) (ErrorMessage : String)
    (h : DeletedFolders ≠ 0) :
    OnCleanupCompleted E false DeletedFolders ErrorMessage =
      HostAction.ShowNotification ("Cleanup completed with errors:\n" ++ ErrorMessage) .CS_Fail ::
        HostAction.MessageDialogOpen
            "Some files could not be deleted. Do you still want to restart the editor?" ::
          (if E.AnswerYes then [HostAction.RestartEditor] else []) := by
  simp [OnCleanupCompleted, h]

/-- C9. On a finite directory tree the walk of `DeleteDirectoryContents`
returns true whatever the individual deletions report. Its calls are: the
listing of files, one `Delete` for every listed file in order (a failure only
adds a warning), the listing of subdirectories, and for every listed
subdirectory the calls of the recursive walk on it followed by its
non-recursive removal. And a walk can only return false if a recursive walk
on a subdirectory returned false. -/
theorem walk_attempts_every_entry {W : World σ} {rank : σ → String → Nat}
    (hft : FiniteTree W rank) (fuel : Nat) (s : σ) (p : String) (h : rank s p < fuel + 1) :
    ∃ s1 tD,
      DeleteDirectoryContents W (fuel + 1) s p = some (true, s1,
        Event.FindFiles (W.PathAppend p "*") true false (listedFiles W s p) ::
          ((deleteFiles W p (listedFiles W s p) s).2 ++
            Event.FindFiles (W.PathAppend p "*") false true (listedSubDirs W s p) :: tD)) ∧
      fileDeletes (deleteFiles W p (listedFiles W s p) s).2
        = (listedFiles W s p).map (W.PathAppend p) ∧
      (∀ f ∈ listedFiles W s p, ∃ r, Event.Delete (W.PathAppend p f) false true true r ∈
        (deleteFiles W p (listedFiles W s p) s).2) ∧
      (∀ d ∈ listedSubDirs W s p, ∃ pre mid post sa sb r,
        tD = pre ++ mid ++ Event.DeleteDirectory (W.PathAppend p d) false false r :: post ∧
        DeleteDirectoryContents W fuel sa (W.PathAppend p d) = some (true, sb, mid)) ∧
      (∀ s2 p2 s3 t3, DeleteDirectoryContents W (fuel + 1) s2 p2 = some (false, s3, t3) →
        ∃ d ∈ listedSubDirs W s2 p2, ∃ sa sb tb,
          DeleteDirectoryContents W fuel sa (W.PathAppend p2 d) = some (false, sb, tb)) := by
  obtain ⟨s1, t, hD, _⟩ := DeleteDirectoryContents_total hft (fuel + 1) s p h
  have hD2 := hD
  simp only [DeleteDirectoryContents] at hD2
  cases hk : deleteSubDirs W (DeleteDirectoryContents W fuel) p (listedSubDirs W s p)
      (deleteFiles W p (listedFiles W s p) s).1 with
  | none => simp [hk] at hD2
  | some k =>
    obtain ⟨b, s2, tD⟩ := k
    simp only [hk, Option.some.injEq, Prod.mk.injEq] at hD2
    obtain ⟨rfl, rfl, rfl⟩ := hD2
    refine ⟨s2, tD, hD, fileDeletes_deleteFiles _ _ _, deleteFiles_attempts _ _ _,
      deleteSubDirs_visits _ _ _ _ _ _ hk, ?_⟩
    intro sx px sy ty hx
    simp only [DeleteDirectoryContents] at hx
    cases hj : deleteSubDirs W (DeleteDirectoryContents W fuel) px (listedSubDirs W sx px)
        (deleteFiles W px (listedFiles W sx px) sx).1 with
    | none => simp [hj] at hx
    | some j =>
      obtain ⟨b, s4, t4⟩ := j
      simp only [hj, Option.some.injEq, Prod.mk.injEq] at hx
      obtain ⟨rfl, rfl, rfl⟩ := hx
      exact deleteSubDirs_false _ _ _ _ _ _ hj

/-- C10. On a finite directory tree `DeleteDirectoryContents` returns, and it
returns true; whatever the budget, a walk that returns never returns false.
Hence the result of Strategy B is the result of the final non-recursive
`DeleteDirectory` on the top-level path alone. -/
theorem deleteDirectoryContents_terminates_true {W : World σ} {rank : σ → String → Nat}
    (hft : FiniteTree W rank) (fuel : Nat) (s : σ) (p : String) (h : rank s p < fuel) :
    ∃ s1 t, DeleteDirectoryContents W fuel s p = some (true, s1, t) ∧
      manualDelete W fuel s p = some ((W.DeleteDirectory s1 p true false).1,
        (W.DeleteDirectory s1 p true false).2,
        t ++ [Event.DeleteDirectory p true false (W.DeleteDirectory s1 p true false).1]) ∧
      (∀ n s2 p2 b s3 t3, DeleteDirectoryContents W n s2 p2 = some (b, s3, t3) → b = true) := by
  obtain ⟨s1, t, hD, _⟩ := DeleteDirectoryContents_total hft fuel s p h
  exact ⟨s1, t, hD, manualDelete_of_walk _ _ _ _ _ hD,
    fun n s2 p2 b s3 t3 hx => DeleteDirectoryContents_true n s2 p2 b s3 t3 hx⟩

/-! ## The claims on concrete inputs -/

theorem performCleanupWork_one_bucket_per_path_witness :
    (FiniteTree (flatFS ["/proj/Saved"]) (fun _ _ => 0) ∧
      (∀ p ∈ demoPaths, (fun (_ : List String) (_ : String) => 0) demoState p < 1) ∧
      demoPaths.length < 2147483648) ∧
    ∃ c s1 tr ts, PerformCleanupWork (flatFS ["/proj/Saved"]) 1 demoState demoPaths
        = some (c, s1, tr) ∧
      terminalStates (flatFS ["/proj/Saved"]) 1 demoPaths demoState = some (ts, s1) ∧
      ts.length = demoPaths.length ∧
      existenceChecks tr = demoPaths.zip (ts.map (fun t => decide (t ≠ .Skipped))) ∧
      c.DeletedFolders = (pathsIn .Deleted demoPaths ts).length ∧
      c.ErrorMessage = failureText "" (pathsIn .Failed demoPaths ts) ∧
      c.DeletedFolders + (pathsIn .Failed demoPaths ts).length +
        (pathsIn .Skipped demoPaths ts).length = demoPaths.length :=
  ⟨⟨flatFS_finite _, by decide, by decide⟩,
    performCleanupWork_one_bucket_per_path (flatFS_finite _) 1 demoState demoPaths
      (by decide) (by decide)⟩

theorem failures_in_input_order_witness :
    (FiniteTree (flatFS ["/proj/Saved"]) (fun _ _ => 0) ∧
      (∀ p ∈ demoPaths, (fun (_ : List String) (_ : String) => 0) demoState p < 1)) ∧
    ∃ c s1 tr ts, PerformCleanupWork (flatFS ["/proj/Saved"]) 1 demoState demoPaths
        = some (c, s1, tr) ∧
      terminalStates (flatFS ["/proj/Saved"]) 1 demoPaths demoState = some (ts, s1) ∧
      (existenceChecks tr).map Prod.fst = demoPaths ∧
      bulkDeletes tr = ((existenceChecks tr).filter (fun x => x.2)).map Prod.fst ∧
      c.ErrorMessage = failureText "" (pathsIn .Failed demoPaths ts) ∧
      List.Sublist (pathsIn .Failed demoPaths ts) demoPaths ∧
      (c.bCleanupSuccess = true ↔ pathsIn .Failed demoPaths ts = []) :=
  ⟨⟨flatFS_finite _, by decide⟩,
    failures_in_input_order (flatFS_finite _) 1 demoState demoPaths (by decide)⟩

/-- The example run: the three paths end deleted, skipped and failed. -/
theorem demo_run :
    (PerformCleanupWork (flatFS ["/proj/Saved"]) 1 demoState demoPaths).map (fun r => r.1) =
        some (Cleanup.mk false "Failed to delete: /proj/Saved\n" 1) ∧
      (terminalStates (flatFS ["/proj/Saved"]) 1 demoPaths demoState).map (fun r => r.1) =
        some [.Deleted, .Skipped, .Failed] := by
  decide

/-- Counterexample to C2 as stated: the shell exits with code 0
without removing anything, the path is counted as deleted, and the directory
still exists after the attempts. -/
theorem counted_although_directory_remains :
    (PerformCleanupWork (savedTree false (true, some 0) false) 2 savedEntries
      ["/proj/Saved"]).map (fun r => (r.1.DeletedFolders,
        (savedTree false (true, some 0) false).DirectoryExists r.2.1 "/proj/Saved")) =
      some (1, true) := by
  decide

theorem counted_iff_reported_success_witness :
    (FiniteTree (savedTree false (true, some 0) true) savedRank ∧
      savedRank savedEntries "/proj/Saved" < 2) ∧
    ∃ c1 s1 tr, cleanupFolder (savedTree false (true, some 0) true) 2 (Cleanup.mk true "" 0)
        savedEntries "/proj/Saved" = some (c1, s1, tr) ∧
      (c1.DeletedFolders = wrapInt32 ((Cleanup.mk true "" 0).DeletedFolders + 1) ↔
        (savedTree false (true, some 0) true).DirectoryExists savedEntries "/proj/Saved" = true ∧
          ReportedSuccess "/proj/Saved" tr) ∧
      (c1.DeletedFolders ≠ wrapInt32 ((Cleanup.mk true "" 0).DeletedFolders + 1) →
        c1.DeletedFolders = (Cleanup.mk true "" 0).DeletedFolders) ∧
      ((savedTree false (true, some 0) true).DirectoryExists savedEntries "/proj/Saved" = false →
        c1 = Cleanup.mk true "" 0 ∧ s1 = savedEntries) ∧
      (Truthful (savedTree false (true, some 0) true) →
        c1.DeletedFolders = wrapInt32 ((Cleanup.mk true "" 0).DeletedFolders + 1) →
        (savedTree false (true, some 0) true).DirectoryExists s1 "/proj/Saved" = false) :=
  ⟨⟨savedTree_finite _ _ _, by decide⟩,
    counted_iff_reported_success (savedTree_finite _ _ _) 2 (Cleanup.mk true "" 0)
      savedEntries "/proj/Saved" (by decide)⟩

/-- Counterexample to C3 as stated: the bulk removal fails and the
deletion of the locked file fails while every other deletion succeeds, but the
locked file is gone when the directory is removed, so Strategy B succeeds and
no shell command is run. -/
theorem locked_file_without_force_delete :
    (PerformCleanupWork (savedTree true (true, some 0) true) 2 savedEntries
      ["/proj/Saved"]).map (fun r => (r.1, shellCalls r.2.2,
        decide (Event.DeleteDirectory "/proj/Saved" false true false ∈ r.2.2),
        decide (Event.Delete "/proj/Saved/lock.tmp" false true true false ∈ r.2.2),
        decide (Event.Delete "/proj/Saved/a.log" false true true true ∈ r.2.2),
        decide (Event.Delete "/proj/Saved/Logs/x.log" false true true true ∈ r.2.2))) =
      some (Cleanup.mk true "" 1, [], true, true, true, true) := by
  decide

theorem cascade_order_witness :
    (FiniteTree (savedTree false (true, some 0) true) savedRank ∧
      savedRank savedEntries "/proj/Saved" < 2 ∧
      (savedTree false (true, some 0) true).DirectoryExists savedEntries "/proj/Saved" = true) ∧
    ∃ c1 s1 tr, cleanupFolder (savedTree false (true, some 0) true) 2 (Cleanup.mk true "" 0)
        savedEntries "/proj/Saved" = some (c1, s1, tr) ∧
      (((savedTree false (true, some 0) true).DeleteDirectory savedEntries "/proj/Saved"
          false true).1 = true →
        tr = [Event.DirectoryExists "/proj/Saved" true,
          Event.UE_LOG .Log ("Attempting to delete folder: " ++ "/proj/Saved"),
          Event.DeleteDirectory "/proj/Saved" false true true,
          Event.UE_LOG .Log ("Successfully deleted: " ++ "/proj/Saved")]) ∧
      (((savedTree false (true, some 0) true).DeleteDirectory savedEntries "/proj/Saved"
          false true).1 = false →
        ∃ sw tw, DeleteDirectoryContents (savedTree false (true, some 0) true) 2
            ((savedTree false (true, some 0) true).DeleteDirectory savedEntries "/proj/Saved"
              false true).2 "/proj/Saved" = some (true, sw, tw) ∧
          (((savedTree false (true, some 0) true).DeleteDirectory sw "/proj/Saved"
              true false).1 = true →
            tr = [Event.DirectoryExists "/proj/Saved" true,
              Event.UE_LOG .Log ("Attempting to delete folder: " ++ "/proj/Saved"),
              Event.DeleteDirectory "/proj/Saved" false true false] ++
              (tw ++ [Event.DeleteDirectory "/proj/Saved" true false true]) ++ [] ++
              [Event.UE_LOG .Log ("Successfully deleted: " ++ "/proj/Saved")]) ∧
          (((savedTree false (true, some 0) true).DeleteDirectory sw "/proj/Saved"
              true false).1 = false →
            ∃ lg, tr = [Event.DirectoryExists "/proj/Saved" true,
              Event.UE_LOG .Log ("Attempting to delete folder: " ++ "/proj/Saved"),
              Event.DeleteDirectory "/proj/Saved" false true false] ++
              (tw ++ [Event.DeleteDirectory "/proj/Saved" true false false]) ++
              (ForceDeleteDirectory (savedTree false (true, some 0) true)
                ((savedTree false (true, some 0) true).DeleteDirectory sw "/proj/Saved"
                  true false).2 "/proj/Saved").2.2 ++ [lg] ∧
            c1 = record (Cleanup.mk true "" 0) "/proj/Saved"
              (if (ForceDeleteDirectory (savedTree false (true, some 0) true)
                ((savedTree false (true, some 0) true).DeleteDirectory sw "/proj/Saved"
                  true false).2 "/proj/Saved").1
                then .Deleted else .Failed) ∧
            (((savedTree false (true, some 0) true).PLATFORM_WINDOWS ||
                (savedTree false (true, some 0) true).PLATFORM_MAC ||
                (savedTree false (true, some 0) true).PLATFORM_LINUX) = true →
              ∃ u a r rc, (ForceDeleteDirectory (savedTree false (true, some 0) true)
                ((savedTree false (true, some 0) true).DeleteDirectory sw "/proj/Saved"
                  true false).2 "/proj/Saved").2.2
                = [Event.ExecProcess u a r rc]))) :=
  ⟨⟨savedTree_finite _ _ _, by decide, by decide⟩,
    cascade_order (savedTree_finite false (true, some 0) true) 2
      (Cleanup.mk true "" 0) savedEntries "/proj/Saved" (by decide) (by decide)⟩

/-- The cascade on the locked tree: bulk removal, the walk, the final removal
and then the shell command, after which the path is counted as deleted. -/
theorem locked_tree_run :
    (cleanupFolder (savedTree false (true, some 0) true) 2 (Cleanup.mk true "" 0)
      savedEntries "/proj/Saved").map (fun r => (r.1, bulkDeletes r.2.2, fileDeletes r.2.2,
        shellCalls r.2.2)) =
      some (Cleanup.mk true "" 1, ["/proj/Saved"],
        ["/proj/Saved/a.log", "/proj/Saved/lock.tmp", "/proj/Saved/Logs/x.log"],
        [("/bin/sh", "-c \"rm -rf \"/proj/Saved\"\"")]) := by
  decide

/-- Counterexample to C5 as stated: the shell exits with code 0 without
removing anything, so the first run fully succeeds with one directory counted,
and the second run from the resulting state finds the directory again and
counts it again instead of skipping it. -/
theorem second_run_deletes_again :
    (PerformCleanupWork (savedTree false (true, some 0) false) 2 savedEntries
      ["/proj/Saved"]).map (fun r => (r.1, r.2.1)) =
        some (Cleanup.mk true "" 1, ["/proj/Saved", "/proj/Saved/lock.tmp"]) ∧
    (PerformCleanupWork (savedTree false (true, some 0) false) 2
      ["/proj/Saved", "/proj/Saved/lock.tmp"] ["/proj/Saved"]).map (fun r => r.1) =
        some (Cleanup.mk true "" 1) := by
  decide

theorem second_run_skips_everything_witness :
    (Truthful (flatFS []) ∧
      (PerformCleanupWork (flatFS []) 1 demoState demoPaths).map (fun r => (r.1, r.2.1)) =
        some (Cleanup.mk true "" 2, [])) ∧
    ∃ tr2, PerformCleanupWork (flatFS []) 1 [] demoPaths =
        some ({ bCleanupSuccess := true, ErrorMessage := "", DeletedFolders := 0 }, [], tr2) ∧
      terminalStates (flatFS []) 1 demoPaths [] =
        some (List.replicate demoPaths.length .Skipped, []) ∧
      existenceChecks tr2 = demoPaths.map (fun p => (p, false)) ∧ bulkDeletes tr2 = [] :=
  ⟨⟨flatFS_truthful _, by decide⟩,
    second_run_skips_everything (flatFS_truthful []) 1 demoState demoPaths
      (Cleanup.mk true "" 2) [] _ rfl rfl⟩

/-- Counterexample to C6 as stated: `/proj/Saved` lies below `/proj`. In the
order parent, child the child is skipped and one directory is counted; in the
order child, parent both are deleted and two are counted. -/
theorem nested_paths_order_dependent :
    (PerformCleanupWork nestedFS 1 ["/proj", "/proj/Saved"] ["/proj", "/proj/Saved"]).map
        (fun r => r.1) = some (Cleanup.mk true "" 1) ∧
    (terminalStates nestedFS 1 ["/proj", "/proj/Saved"] ["/proj", "/proj/Saved"]).map
        (fun r => r.1) = some [.Deleted, .Skipped] ∧
    (PerformCleanupWork nestedFS 1 ["/proj", "/proj/Saved"] ["/proj/Saved", "/proj"]).map
        (fun r => r.1) = some (Cleanup.mk true "" 2) ∧
    (terminalStates nestedFS 1 ["/proj/Saved", "/proj"] ["/proj", "/proj/Saved"]).map
        (fun r => r.1) = some [.Deleted, .Deleted] := by
  decide

theorem permutation_same_classification_witness :
    (FiniteTree (flatFS ["/proj/Saved"]) (fun _ _ => 0) ∧
      (∀ p ∈ demoPaths, (fun (_ : List String) (_ : String) => 0) demoState p < 1) ∧
      demoPaths.length < 2147483648 ∧ Independent (flatFS ["/proj/Saved"]) 1 demoPaths ∧
      demoPaths.Perm ["/proj/Saved", "/proj/Intermediate", "/proj/DoesNotExist"]) ∧
    ∃ c1 c2 sf tr1 tr2 ts1 ts2,
      PerformCleanupWork (flatFS ["/proj/Saved"]) 1 demoState demoPaths = some (c1, sf, tr1) ∧
      PerformCleanupWork (flatFS ["/proj/Saved"]) 1 demoState
        ["/proj/Saved", "/proj/Intermediate", "/proj/DoesNotExist"] = some (c2, sf, tr2) ∧
      terminalStates (flatFS ["/proj/Saved"]) 1 demoPaths demoState = some (ts1, sf) ∧
      terminalStates (flatFS ["/proj/Saved"]) 1
        ["/proj/Saved", "/proj/Intermediate", "/proj/DoesNotExist"] demoState = some (ts2, sf) ∧
      (demoPaths.zip ts1).Perm
        (["/proj/Saved", "/proj/Intermediate", "/proj/DoesNotExist"].zip ts2) ∧
      c1.DeletedFolders = c2.DeletedFolders ∧
      c1.bCleanupSuccess = c2.bCleanupSuccess ∧
      (pathsIn .Failed demoPaths ts1).Perm
        (pathsIn .Failed ["/proj/Saved", "/proj/Intermediate", "/proj/DoesNotExist"] ts2) :=
  ⟨⟨flatFS_finite _, by decide, by decide, flatFS_independent _ _, by decide⟩,
    permutation_same_classification (flatFS_finite _) 1 demoState demoPaths
      ["/proj/Saved", "/proj/Intermediate", "/proj/DoesNotExist"] (by decide) (by decide)
      (flatFS_independent _ _) (by decide)⟩

/-- Counterexample to C7 as stated: one existing directory on which all three
strategies fail gives a failure text of one entry, and that entry does not
hold the words `all strategies exhausted`. -/
theorem failure_entry_without_reason_text :
    (PerformCleanupWork (savedTree false (true, some 1) false) 2 savedEntries
      ["/proj/Saved"]).map (fun r => (r.1, bulkDeletes r.2.2, shellCalls r.2.2)) =
        some (Cleanup.mk false "Failed to delete: /proj/Saved\n" 0, ["/proj/Saved"],
          [("/bin/sh", "-c \"rm -rf \"/proj/Saved\"\"")]) ∧
    ¬ ("all strategies exhausted".toList <:+: "Failed to delete: /proj/Saved\n".toList) := by
  decide

theorem single_failure_outcome_witness :
    (FiniteTree (savedTree false (true, some 1) false) savedRank ∧
      savedRank savedEntries "/proj/Saved" < 2 ∧
      (savedTree false (true, some 1) false).DirectoryExists savedEntries "/proj/Saved" = true ∧
      ((savedTree false (true, some 1) false).DeleteDirectory savedEntries "/proj/Saved"
        false true).1 = false ∧
      (∀ sw tw, DeleteDirectoryContents (savedTree false (true, some 1) false) 2
          ((savedTree false (true, some 1) false).DeleteDirectory savedEntries "/proj/Saved"
            false true).2 "/proj/Saved" = some (true, sw, tw) →
        ((savedTree false (true, some 1) false).DeleteDirectory sw "/proj/Saved"
          true false).1 = false) ∧
      (∀ sw tw, DeleteDirectoryContents (savedTree false (true, some 1) false) 2
          ((savedTree false (true, some 1) false).DeleteDirectory savedEntries "/proj/Saved"
            false true).2 "/proj/Saved" = some (true, sw, tw) →
        (ForceDeleteDirectory (savedTree false (true, some 1) false)
          ((savedTree false (true, some 1) false).DeleteDirectory sw "/proj/Saved"
            true false).2 "/proj/Saved").1 = false)) ∧
    ∃ sw tw tr, DeleteDirectoryContents (savedTree false (true, some 1) false) 2
        ((savedTree false (true, some 1) false).DeleteDirectory savedEntries "/proj/Saved"
          false true).2 "/proj/Saved" = some (true, sw, tw) ∧
      PerformCleanupWork (savedTree false (true, some 1) false) 2 savedEntries ["/proj/Saved"] =
        some (Cleanup.mk false ("Failed to delete: " ++ "/proj/Saved" ++ "\n") 0,
          (ForceDeleteDirectory (savedTree false (true, some 1) false)
            ((savedTree false (true, some 1) false).DeleteDirectory sw "/proj/Saved"
              true false).2 "/proj/Saved").2.1, tr) :=
  ⟨⟨savedTree_finite _ _ _, by decide, by decide, by decide,
      savedTree_walk_rmdir_fails, savedTree_walk_shell_fails⟩,
    single_failure_outcome (savedTree_finite false (true, some 1) false) 2 savedEntries
      "/proj/Saved" (by decide) (by decide) (by decide)
      savedTree_walk_rmdir_fails savedTree_walk_shell_fails⟩

theorem walk_attempts_every_entry_witness :
    (FiniteTree (savedTree false (true, some 0) false) savedRank ∧
      savedRank savedEntries "/proj/Saved" < 1 + 1) ∧
    ∃ s1 tD,
      DeleteDirectoryContents (savedTree false (true, some 0) false) (1 + 1) savedEntries
        "/proj/Saved" = some (true, s1,
        Event.FindFiles ((savedTree false (true, some 0) false).PathAppend "/proj/Saved" "*")
            true false (listedFiles (savedTree false (true, some 0) false) savedEntries
              "/proj/Saved") ::
          ((deleteFiles (savedTree false (true, some 0) false) "/proj/Saved"
              (listedFiles (savedTree false (true, some 0) false) savedEntries "/proj/Saved")
              savedEntries).2 ++
            Event.FindFiles ((savedTree false (true, some 0) false).PathAppend "/proj/Saved" "*")
              false true (listedSubDirs (savedTree false (true, some 0) false) savedEntries
                "/proj/Saved") :: tD)) ∧
      fileDeletes (deleteFiles (savedTree false (true, some 0) false) "/proj/Saved"
          (listedFiles (savedTree false (true, some 0) false) savedEntries "/proj/Saved")
          savedEntries).2
        = (listedFiles (savedTree false (true, some 0) false) savedEntries "/proj/Saved").map
          ((savedTree false (true, some 0) false).PathAppend "/proj/Saved") ∧
      (∀ f ∈ listedFiles (savedTree false (true, some 0) false) savedEntries "/proj/Saved",
        ∃ r, Event.Delete ((savedTree false (true, some 0) false).PathAppend "/proj/Saved" f)
            false true true r ∈
          (deleteFiles (savedTree false (true, some 0) false) "/proj/Saved"
            (listedFiles (savedTree false (true, some 0) false) savedEntries "/proj/Saved")
            savedEntries).2) ∧
      (∀ d ∈ listedSubDirs (savedTree false (true, some 0) false) savedEntries "/proj/Saved",
        ∃ pre mid post sa sb r,
          tD = pre ++ mid ++ Event.DeleteDirectory
            ((savedTree false (true, some 0) false).PathAppend "/proj/Saved" d)
            false false r :: post ∧
          DeleteDirectoryContents (savedTree false (true, some 0) false) 1 sa
            ((savedTree false (true, some 0) false).PathAppend "/proj/Saved" d)
            = some (true, sb, mid)) ∧
      (∀ s2 p2 s3 t3, DeleteDirectoryContents (savedTree false (true, some 0) false) (1 + 1)
          s2 p2 = some (false, s3, t3) →
        ∃ d ∈ listedSubDirs (savedTree false (true, some 0) false) s2 p2, ∃ sa sb tb,
          DeleteDirectoryContents (savedTree false (true, some 0) false) 1 sa
            ((savedTree false (true, some 0) false).PathAppend p2 d) = some (false, sb, tb)) :=
  ⟨⟨savedTree_finite _ _ _, by decide⟩,
    walk_attempts_every_entry (savedTree_finite false (true, some 0) false) 1 savedEntries
      "/proj/Saved" (by decide)⟩

/-- The walk on the locked tree: every file is tried, the failure on
`lock.tmp` is logged, and the subdirectory is walked and then removed. -/
theorem locked_tree_walk :
    (DeleteDirectoryContents (savedTree false (true, some 0) false) 2 savedEntries
      "/proj/Saved").map (fun r => (r.1, r.2.2)) =
      some (true,
        [Event.FindFiles "/proj/Saved/*" true false ["a.log", "lock.tmp"],
          Event.Delete "/proj/Saved/a.log" false true true true,
          Event.Delete "/proj/Saved/lock.tmp" false true true false,
          Event.UE_LOG .Warning "Could not delete file: /proj/Saved/lock.tmp",
          Event.FindFiles "/proj/Saved/*" false true ["Logs"],
          Event.FindFiles "/proj/Saved/Logs/*" true false ["x.log"],
          Event.Delete "/proj/Saved/Logs/x.log" false true true true,
          Event.FindFiles "/proj/Saved/Logs/*" false true [],
          Event.DeleteDirectory "/proj/Saved/Logs" false false true]) := by
  decide

theorem deleteDirectoryContents_terminates_true_witness :
    (FiniteTree (savedTree false (true, some 0) false) savedRank ∧
      savedRank savedEntries "/proj/Saved" < 2) ∧
    ∃ s1 t, DeleteDirectoryContents (savedTree false (true, some 0) false) 2 savedEntries
        "/proj/Saved" = some (true, s1, t) ∧
      manualDelete (savedTree false (true, some 0) false) 2 savedEntries "/proj/Saved" =
        some (((savedTree false (true, some 0) false).DeleteDirectory s1 "/proj/Saved"
            true false).1,
          ((savedTree false (true, some 0) false).DeleteDirectory s1 "/proj/Saved" true false).2,
          t ++ [Event.DeleteDirectory "/proj/Saved" true false
            ((savedTree false (true, some 0) false).DeleteDirectory s1 "/proj/Saved"
              true false).1]) ∧
      (∀ n s2 p2 b s3 t3, DeleteDirectoryContents (savedTree false (true, some 0) false) n s2 p2
        = some (b, s3, t3) → b = true) :=
  ⟨⟨savedTree_finite _ _ _, by decide⟩,
    deleteDirectoryContents_terminates_true (savedTree_finite false (true, some 0) false) 2
      savedEntries "/proj/Saved" (by decide)⟩

end CleanCache
